import Mathlib

/-!
Verification of the DLHD stream-URL extractor (`dlhd_extractor.py`).

The Python source is shallowly embedded: pure helpers become Lean functions on
`String` / `List Char` / `Nat`; network effects (HTTP requests, HEAD probes)
become oracle parameters; the in-memory cache dictionary becomes an explicit
association list threaded through the model; writes of the cache file are
recorded as a list of persisted snapshots.  Python library functions used by
the source (`re.search` for the specific patterns appearing in the code,
`base64.b64encode`/`b64decode`, `json.dumps`/`loads` on the documents the code
produces, `urllib.parse.quote_plus`, UTF-8 coding) are modelled faithfully on
the inputs the extractor handles.
-/

/-- Characters the scanner treats specially are built by code point. -/
def dquoteC : Char := Char.ofNat 34

def squoteC : Char := Char.ofNat 39

def obraceC : Char := Char.ofNat 123

def cbraceC : Char := Char.ofNat 125

/-- ASCII whitespace recognised by Python's `\s`, `str.strip` (ASCII fragment). -/
def isPySpace (c : Char) : Bool :=
  (c == ' ') || (c == '\t') || (c == '\n') || (c == '\r') ||
  (c == Char.ofNat 11) || (c == Char.ofNat 12)

/-- ASCII lower-casing, the fragment of `re.IGNORECASE` relevant to the
ASCII-only literals appearing in the extractor's patterns. -/
def lowerA (c : Char) : Char := c.toLower

/-- ASCII alphanumeric test (Python's always-safe characters for `quote`). -/
def isAlnumA (c : Char) : Bool := c.isAlpha || c.isDigit

/-- Comma-space join, as `", ".join(...)` in Python. -/
def joinComma (l : List String) : String := String.intercalate ", " l

/-! ### Base64 (Python `base64.b64encode` / `b64decode`) -/

/-- The value of a base64 alphabet character. -/
def b64Idx (c : Char) : Option Nat :=
  if 'A' ≤ c ∧ c ≤ 'Z' then some (c.toNat - 'A'.toNat)
  else if 'a' ≤ c ∧ c ≤ 'z' then some (c.toNat - 'a'.toNat + 26)
  else if '0' ≤ c ∧ c ≤ '9' then some (c.toNat - '0'.toNat + 52)
  else if c = '+' then some 62
  else if c = '/' then some 63
  else none

/-- The base64 alphabet character of a 6-bit value. -/
def b64Chr (i : Nat) : Char :=
  if i < 26 then Char.ofNat ('A'.toNat + i)
  else if i < 52 then Char.ofNat ('a'.toNat + i - 26)
  else if i < 62 then Char.ofNat ('0'.toNat + i - 52)
  else if i = 62 then '+'
  else '/'

def isB64Char (c : Char) : Bool := (b64Idx c).isSome

/-- `base64.b64encode` over a byte list, producing the padded character form. -/
def encodeB64 : List Nat → List Char
  | [] => []
  | [b1] => [b64Chr (b1 / 4), b64Chr (b1 % 4 * 16), '=', '=']
  | [b1, b2] => [b64Chr (b1 / 4), b64Chr (b1 % 4 * 16 + b2 / 16), b64Chr (b2 % 16 * 4), '=']
  | b1 :: b2 :: b3 :: rest =>
    b64Chr (b1 / 4) :: b64Chr (b1 % 4 * 16 + b2 / 16) ::
      b64Chr (b2 % 16 * 4 + b3 / 64) :: b64Chr (b3 % 64) :: encodeB64 rest

/-- Decode groups of four base64 characters; padding is accepted only in the
final quantum, which is where `b64encode` ever places it. -/
def decodeB64Groups : List Char → Option (List Nat)
  | [] => some []
  | c1 :: c2 :: c3 :: c4 :: rest =>
    if c3 = '=' ∧ c4 = '=' ∧ rest = [] then do
      let i1 ← b64Idx c1
      let i2 ← b64Idx c2
      pure [i1 * 4 + i2 / 16]
    else if c4 = '=' ∧ rest = [] then do
      let i1 ← b64Idx c1
      let i2 ← b64Idx c2
      let i3 ← b64Idx c3
      pure [i1 * 4 + i2 / 16, i2 % 16 * 16 + i3 / 4]
    else do
      let i1 ← b64Idx c1
      let i2 ← b64Idx c2
      let i3 ← b64Idx c3
      let i4 ← b64Idx c4
      let tl ← decodeB64Groups rest
      pure ((i1 * 4 + i2 / 16) :: (i2 % 16 * 16 + i3 / 4) :: (i3 % 4 * 64 + i4) :: tl)
  | _ => none

/-- `base64.b64encode(..).decode('utf-8')`: the textual base64 form. -/
def b64encodeStr (bs : List Nat) : String := String.mk (encodeB64 bs)

/-- `base64.b64decode` on a `str` argument: requires ASCII input (else Python
raises while encoding the text), discards characters outside the alphabet,
then requires whole quanta.  Behaviour on the degenerate inputs CPython's
lenient parser additionally tolerates (stray padding mid-stream) is not
modelled; such inputs are rejected, as they are never produced by the code. -/
def b64decodePy (s : String) : Option (List Nat) :=
  if s.data.all (fun c => c.toNat < 128) then
    let cs := s.data.filter (fun c => isB64Char c || c == '=')
    if cs.length % 4 = 0 then decodeB64Groups cs else none
  else none

/-! ### UTF-8 (Python `str.encode('utf-8')` / `bytes.decode('utf-8')`) -/

/-- UTF-8 encoding of one scalar value. -/
def utf8EncodeChar (c : Char) : List Nat :=
  let n := c.toNat
  if n < 0x80 then [n]
  else if n < 0x800 then [0xC0 + n / 0x40, 0x80 + n % 0x40]
  else if n < 0x10000 then [0xE0 + n / 0x1000, 0x80 + n / 0x40 % 0x40, 0x80 + n % 0x40]
  else [0xF0 + n / 0x40000, 0x80 + n / 0x1000 % 0x40, 0x80 + n / 0x40 % 0x40, 0x80 + n % 0x40]

def utf8EncodeL (s : List Char) : List Nat := s.flatMap utf8EncodeChar

def utf8Encode (s : String) : List Nat := utf8EncodeL s.data

/-- A UTF-8 continuation byte. -/
def utf8Cont (b : Nat) : Prop := 0x80 ≤ b ∧ b < 0xC0

instance (b : Nat) : Decidable (utf8Cont b) := by unfold utf8Cont; infer_instance

/-- Two-byte sequence arm of the strict UTF-8 decoder (`k` decodes the rest). -/
def utf8Arm2 (k : List Nat → Option (List Char)) (b : Nat) : List Nat → Option (List Char)
  | b2 :: bs2 =>
    if utf8Cont b2 then (k bs2).map (Char.ofNat ((b - 0xC0) * 0x40 + (b2 - 0x80)) :: ·)
    else none
  | [] => none

/-- Three-byte sequence arm (rejects overlong forms and surrogates). -/
def utf8Arm3 (k : List Nat → Option (List Char)) (b : Nat) : List Nat → Option (List Char)
  | b2 :: b3 :: bs3 =>
    if utf8Cont b2 ∧ utf8Cont b3 then
      if 0x800 ≤ (b - 0xE0) * 0x1000 + (b2 - 0x80) * 0x40 + (b3 - 0x80) ∧
          ((b - 0xE0) * 0x1000 + (b2 - 0x80) * 0x40 + (b3 - 0x80) < 0xD800 ∨
           0xDFFF < (b - 0xE0) * 0x1000 + (b2 - 0x80) * 0x40 + (b3 - 0x80)) then
        (k bs3).map (Char.ofNat ((b - 0xE0) * 0x1000 + (b2 - 0x80) * 0x40 + (b3 - 0x80)) :: ·)
      else none
    else none
  | _ => none

/-- Four-byte sequence arm (rejects overlong and out-of-range forms). -/
def utf8Arm4 (k : List Nat → Option (List Char)) (b : Nat) : List Nat → Option (List Char)
  | b2 :: b3 :: b4 :: bs4 =>
    if utf8Cont b2 ∧ utf8Cont b3 ∧ utf8Cont b4 then
      if 0x10000 ≤ (b - 0xF0) * 0x40000 + (b2 - 0x80) * 0x1000 + (b3 - 0x80) * 0x40 +
            (b4 - 0x80) ∧
          (b - 0xF0) * 0x40000 + (b2 - 0x80) * 0x1000 + (b3 - 0x80) * 0x40 + (b4 - 0x80) <
            0x110000 then
        (k bs4).map (Char.ofNat ((b - 0xF0) * 0x40000 + (b2 - 0x80) * 0x1000 +
          (b3 - 0x80) * 0x40 + (b4 - 0x80)) :: ·)
      else none
    else none
  | _ => none

/-- Strict UTF-8 decoding (`bytes.decode('utf-8')`), rejecting truncated or
overlong sequences and surrogate code points.  `fuel` only bounds the number
of decoded characters; the wrapper passes the byte count, which every
sequence-length case strictly dominates, so the fuel never runs out on any
input. -/
def utf8DecodeAux : Nat → List Nat → Option (List Char)
  | _, [] => some []
  | 0, _ :: _ => none
  | fuel + 1, b :: bs =>
    if b < 0x80 then (utf8DecodeAux fuel bs).map (Char.ofNat b :: ·)
    else if b < 0xC2 then none
    else if b < 0xE0 then utf8Arm2 (utf8DecodeAux fuel) b bs
    else if b < 0xF0 then utf8Arm3 (utf8DecodeAux fuel) b bs
    else if b < 0xF5 then utf8Arm4 (utf8DecodeAux fuel) b bs
    else none

def utf8DecodeL (bs : List Nat) : Option (List Char) := utf8DecodeAux bs.length bs

def utf8DecodeStr (bs : List Nat) : Option String := (utf8DecodeL bs).map String.mk

/-- `base64.b64decode(x).decode('utf-8')` as used throughout the extractor. -/
def b64decodeToStr (s : String) : Option String := do
  let bs ← b64decodePy s
  utf8DecodeStr bs

/-! ### Hex digits -/

def hexDigitVal (c : Char) : Option Nat :=
  if '0' ≤ c ∧ c ≤ '9' then some (c.toNat - '0'.toNat)
  else if 'a' ≤ c ∧ c ≤ 'f' then some (c.toNat - 'a'.toNat + 10)
  else if 'A' ≤ c ∧ c ≤ 'F' then some (c.toNat - 'A'.toNat + 10)
  else none

/-- Lower-case hex digit, as emitted by `json.dumps` in `\uXXXX` escapes. -/
def hexDigLower (i : Nat) : Char :=
  if i < 10 then Char.ofNat ('0'.toNat + i) else Char.ofNat ('a'.toNat + i - 10)

/-- Upper-case hex digit, as emitted by `urllib.parse.quote_plus`. -/
def hexDigUpper (i : Nat) : Char :=
  if i < 10 then Char.ofNat ('0'.toNat + i) else Char.ofNat ('A'.toNat + i - 10)

def toHex4 (n : Nat) : List Char :=
  [hexDigLower (n / 4096), hexDigLower (n / 256 % 16), hexDigLower (n / 16 % 16),
   hexDigLower (n % 16)]

/-! ### JSON text (Python `json.dumps(...)` with its defaults, `json.loads`)

`json.dumps` is called with default arguments, so strings are serialised with
`ensure_ascii=True` (code points outside `0x20..0x7e` become `\uXXXX`
escapes, astral ones as surrogate pairs) and containers use the separators
`", "` and `": "`.  The parsers below model `json.loads` on the class of
documents the extractor ever feeds it: objects whose values are strings (the
XJZ/BUNDLE auth bundles) and the cache document written by `_save_cache`. -/

/-- `json.dumps` escaping of one character (`ensure_ascii=True`). -/
def escChar (c : Char) : List Char :=
  if c = dquoteC then ['\\', dquoteC]
  else if c = '\\' then ['\\', '\\']
  else if c = '\n' then ['\\', 'n']
  else if c = '\r' then ['\\', 'r']
  else if c = '\t' then ['\\', 't']
  else if c.toNat = 8 then ['\\', 'b']
  else if c.toNat = 12 then ['\\', 'f']
  else if c.toNat < 0x20 ∨ 0x7e < c.toNat then
    if c.toNat < 0x10000 then '\\' :: 'u' :: toHex4 c.toNat
    else
      '\\' :: 'u' :: toHex4 (0xD800 + (c.toNat - 0x10000) / 0x400) ++
        '\\' :: 'u' :: toHex4 (0xDC00 + (c.toNat - 0x10000) % 0x400)
  else [c]

def escapeL (s : List Char) : List Char := s.flatMap escChar

/-- A JSON string literal: `"..."` with the payload escaped. -/
def jstrL (s : List Char) : List Char := dquoteC :: escapeL s ++ [dquoteC]

def jstr (s : String) : String := String.mk (jstrL s.data)

/-- JSON insignificant whitespace accepted by `json.loads`. -/
def isJsonWs (c : Char) : Bool := (c == ' ') || (c == '\t') || (c == '\n') || (c == '\r')

def skipWs (cs : List Char) : List Char := cs.dropWhile isJsonWs

/-- Four hex digits of a `\uXXXX` escape. -/
def parseHex4 : List Char → Option (Nat × List Char)
  | a :: b :: c :: d :: rest => do
    let va ← hexDigitVal a
    let vb ← hexDigitVal b
    let vc ← hexDigitVal c
    let vd ← hexDigitVal d
    pure (va * 4096 + vb * 256 + vc * 16 + vd, rest)
  | _ => none

/-- Decode one escape sequence (the text after the backslash), undoing
`escChar` — including surrogate pairs, which `json.loads` combines.  A lone
surrogate is rejected (never produced by `json.dumps` from valid text). -/
def unescStep : List Char → Option (Char × List Char)
  | [] => none
  | e :: cs2 =>
    if e = dquoteC then some (dquoteC, cs2)
    else if e = '\\' then some ('\\', cs2)
    else if e = '/' then some ('/', cs2)
    else if e = 'n' then some ('\n', cs2)
    else if e = 'r' then some ('\r', cs2)
    else if e = 't' then some ('\t', cs2)
    else if e = 'b' then some (Char.ofNat 8, cs2)
    else if e = 'f' then some (Char.ofNat 12, cs2)
    else if e = 'u' then
      match parseHex4 cs2 with
      | none => none
      | some (n, cs3) =>
        if 0xD800 ≤ n ∧ n < 0xDC00 then
          match cs3 with
          | b1 :: b2 :: cs4 =>
            if b1 = '\\' ∧ b2 = 'u' then
              match parseHex4 cs4 with
              | none => none
              | some (n2, cs5) =>
                if 0xDC00 ≤ n2 ∧ n2 < 0xE000 then
                  some (Char.ofNat (0x10000 + (n - 0xD800) * 0x400 + (n2 - 0xDC00)), cs5)
                else none
            else none
          | _ => none
        else if 0xDC00 ≤ n ∧ n < 0xE000 then none
        else some (Char.ofNat n, cs3)
    else none

/-- Body of a JSON string literal after its opening quote, undoing
`escChar`.  `fuel` bounds the number of decoded characters; one unit is
spent per produced character. -/
def parseStrBody : Nat → List Char → Option (List Char × List Char)
  | _, [] => none
  | 0, c :: cs1 => if c = dquoteC then some ([], cs1) else none
  | fuel + 1, c :: cs1 =>
    if c = dquoteC then some ([], cs1)
    else if c = '\\' then
      match unescStep cs1 with
      | none => none
      | some (ch, cs2) => (parseStrBody fuel cs2).map (fun p => (ch :: p.1, p.2))
    else (parseStrBody fuel cs1).map (fun p => (c :: p.1, p.2))

/-- A JSON string literal, starting at its opening quote. -/
def parseJStr (fuel : Nat) (cs : List Char) : Option (List Char × List Char) :=
  match cs with
  | c :: cs1 => if c = dquoteC then parseStrBody fuel cs1 else none
  | [] => none

/-- A JSON string value, returned as a `String`. -/
def parseJStrV (fuel : Nat) (cs : List Char) : Option (String × List Char) :=
  (parseJStr fuel cs).map (fun p => (String.mk p.1, p.2))

/-- The members of a JSON object after its opening brace (non-empty case),
`pv` parsing each value.  `fuel` bounds the number of members. -/
def parsePairsAux (pv : List Char → Option (V × List Char)) (strFuel : Nat) :
    Nat → List Char → Option (List (String × V) × List Char)
  | 0, _ => none
  | fuel + 1, cs => do
    let (k, cs1) ← parseJStr strFuel cs
    match skipWs cs1 with
    | c :: cs2 =>
      if c = ':' then do
        let (v, cs3) ← pv (skipWs cs2)
        match skipWs cs3 with
        | c2 :: cs4 =>
          if c2 = ',' then do
            let (tl, cs5) ← parsePairsAux pv strFuel fuel (skipWs cs4)
            pure ((String.mk k, v) :: tl, cs5)
          else if c2 = cbraceC then pure ([(String.mk k, v)], cs4)
          else none
        | [] => none
      else none
    | [] => none

/-- A JSON object, `pv` parsing each value. -/
def parseObj (pv : List Char → Option (V × List Char)) (strFuel fuel : Nat)
    (cs : List Char) : Option (List (String × V) × List Char) :=
  match skipWs cs with
  | c :: cs1 =>
    if c = obraceC then
      match skipWs cs1 with
      | c2 :: cs2 =>
        if c2 = cbraceC then some ([], cs2)
        else parsePairsAux pv strFuel fuel (c2 :: cs2)
      | [] => none
    else none
  | [] => none

/-- Python dict construction from parsed members: a repeated key keeps its
first position but takes the later value. -/
def insertReplace (m : List (String × β)) (k : String) (v : β) : List (String × β) :=
  if m.any (fun p => p.1 == k) then m.map (fun p => if p.1 == k then (k, v) else p)
  else m ++ [(k, v)]

def dictOfPairs (l : List (String × String)) : List (String × String) :=
  l.foldl (fun m p => insertReplace m p.1 p.2) []

/-- `json.loads` on a document whose top-level value is an object with string
values (the only shape the bundle decoders accept: any other shape makes the
Python code raise inside its `try` and fall through, which `none` models). -/
def loadsFlatObj (s : String) : Option (List (String × String)) := do
  let (pairs, rest) ← parseObj (parseJStrV s.data.length) s.data.length s.data.length s.data
  if (skipWs rest).isEmpty then pure (dictOfPairs pairs) else none

/-! ### The cache document (`_save_cache` / `_load_cache`) -/

/-- The `auth_data` member of a cached result (keys in the insertion order of
the dict literal built by `try_endpoint`). -/
structure CacheAuthData where
  channel_key : String
  auth_ts : String
  auth_rnd : String
  auth_sig : String
  auth_host : String
  auth_php : String
  iframe_url : String
deriving DecidableEq

/-- A resolved stream as stored in the cache dictionary. -/
structure ResolvedStream where
  destination_url : String
  request_headers : List (String × String)
  mediaflow_endpoint : String
  auth_data : CacheAuthData
deriving DecidableEq

/-- Separator-joined concatenation, as `sep.join(parts)`. -/
def sepJoin (sep : List Char) : List (List Char) → List Char
  | [] => []
  | [x] => x
  | x :: y :: rest => x ++ sep ++ sepJoin sep (y :: rest)

/-- `json.dumps` of an object, with the default separators `", "`/`": "`. -/
def dumpsObjL (pv : V → List Char) (m : List (String × V)) : List Char :=
  obraceC :: sepJoin [',', ' '] (m.map (fun p => jstrL p.1.data ++ ':' :: ' ' :: pv p.2)) ++
    [cbraceC]

def dumpsAuthL (a : CacheAuthData) : List Char :=
  dumpsObjL (fun s => jstrL s.data)
    [("channel_key", a.channel_key), ("auth_ts", a.auth_ts), ("auth_rnd", a.auth_rnd),
     ("auth_sig", a.auth_sig), ("auth_host", a.auth_host), ("auth_php", a.auth_php),
     ("iframe_url", a.iframe_url)]

def dumpsStreamL (r : ResolvedStream) : List Char :=
  obraceC ::
    (jstrL "destination_url".data ++ ':' :: ' ' :: jstrL r.destination_url.data ++
     ',' :: ' ' :: jstrL "request_headers".data ++ ':' :: ' ' ::
       dumpsObjL (fun s => jstrL s.data) r.request_headers ++
     ',' :: ' ' :: jstrL "mediaflow_endpoint".data ++ ':' :: ' ' ::
       jstrL r.mediaflow_endpoint.data ++
     ',' :: ' ' :: jstrL "auth_data".data ++ ':' :: ' ' :: dumpsAuthL r.auth_data) ++
    [cbraceC]

/-- `json.dumps(self._stream_data_cache)`. -/
def dumpsCacheL (m : List (String × ResolvedStream)) : List Char := dumpsObjL dumpsStreamL m

def dumpsCache (m : List (String × ResolvedStream)) : String := String.mk (dumpsCacheL m)

/-- `_save_cache`: the file contents written, i.e.
`base64.b64encode(json.dumps(cache).encode('utf-8')).decode('utf-8')`. -/
def save_cache (m : List (String × ResolvedStream)) : String :=
  b64encodeStr (utf8EncodeL (dumpsCacheL m))

/-- Consume (after whitespace) one expected punctuation character. -/
def expectChar (c : Char) (cs : List Char) : Option (List Char) :=
  match skipWs cs with
  | c2 :: cs1 => if c2 = c then some cs1 else none
  | [] => none

/-- Consume (after whitespace) a string key equal to `key`, then `:`. -/
def expectKeyColon (strFuel : Nat) (key : String) (cs : List Char) : Option (List Char) := do
  let (k, cs1) ← parseJStr strFuel (skipWs cs)
  if String.mk k = key then
    match skipWs cs1 with
    | c :: cs2 => if c = ':' then some (skipWs cs2) else none
    | [] => none
  else none

/-- Parse `, "key": "value"` (one further member written by `_save_cache`). -/
def parseFieldComma (strFuel : Nat) (key : String) (cs : List Char) :
    Option (String × List Char) := do
  let cs ← expectChar ',' cs
  let cs ← expectKeyColon strFuel key cs
  parseJStrV strFuel cs

/-- Parse the serialised `auth_data` object (shape written by `_save_cache`). -/
def parseAuthData (strFuel : Nat) (cs : List Char) : Option (CacheAuthData × List Char) := do
  let cs ← expectChar obraceC cs
  let cs ← expectKeyColon strFuel "channel_key" cs
  let (ck, cs) ← parseJStrV strFuel cs
  let (ts, cs) ← parseFieldComma strFuel "auth_ts" cs
  let (rnd, cs) ← parseFieldComma strFuel "auth_rnd" cs
  let (sig, cs) ← parseFieldComma strFuel "auth_sig" cs
  let (host, cs) ← parseFieldComma strFuel "auth_host" cs
  let (php, cs) ← parseFieldComma strFuel "auth_php" cs
  let (ifr, cs) ← parseFieldComma strFuel "iframe_url" cs
  let cs ← expectChar cbraceC cs
  pure (⟨ck, ts, rnd, sig, host, php, ifr⟩, cs)

/-- Parse one serialised `ResolvedStream` object (shape written by
`_save_cache`; `json.loads` itself is order-insensitive, but the cache loader
is only ever required to invert `_save_cache`, which writes this order). -/
def parseStream (strFuel fuel : Nat) (cs : List Char) :
    Option (ResolvedStream × List Char) := do
  let cs ← expectChar obraceC cs
  let cs ← expectKeyColon strFuel "destination_url" cs
  let (du, cs) ← parseJStrV strFuel cs
  let cs ← expectChar ',' cs
  let cs ← expectKeyColon strFuel "request_headers" cs
  let (hs, cs) ← parseObj (parseJStrV strFuel) strFuel fuel cs
  let (me, cs) ← parseFieldComma strFuel "mediaflow_endpoint" cs
  let cs ← expectChar ',' cs
  let cs ← expectKeyColon strFuel "auth_data" cs
  let (ad, cs) ← parseAuthData strFuel cs
  let cs ← expectChar cbraceC cs
  pure (⟨du, hs, me, ad⟩, cs)

/-- `json.loads` on the cache document. -/
def loadsCache (s : String) : Option (List (String × ResolvedStream)) := do
  let n := s.data.length
  let (m, rest) ← parseObj (parseStream n n) n n s.data
  if (skipWs rest).isEmpty then pure m else none

/-- `_load_cache` applied to the contents of the cache file: empty contents
give an empty cache; otherwise base64-decode, UTF-8-decode and `json.loads`.
`none` models the decoding raising (the source then either starts with an
empty cache or propagates, which no claim distinguishes). -/
def load_cache (contents : String) : Option (List (String × ResolvedStream)) :=
  if contents.isEmpty then some [] else do
    let bs ← b64decodePy contents
    let s ← utf8DecodeStr bs
    loadsCache s

/-! ### Leftmost-match search for the extractor's regular expressions

Each pattern appearing in the source is compiled by hand to a matcher on
`List Char`; `searchAux` reproduces `re.search`'s leftmost-match scan.  In
every pattern of the source, the greedy pieces (`\s+`, `\d+`, `[^"']+`, …)
are followed by text no shortened match could ever satisfy (the following
character class is disjoint), so greedy matching without backtracking is
exact for them; local alternations (`(?:const|var|let)`, `(?:%2F|/)`,
optional `(?:__)?`) are tried in the regex's order. -/

/-- Consume a literal, case-sensitively. -/
def litL : List Char → List Char → Option (List Char)
  | [], cs => some cs
  | _ :: _, [] => none
  | p :: ps, c :: cs => if c = p then litL ps cs else none

/-- Consume a literal, ASCII-case-insensitively (`re.IGNORECASE`). -/
def litCI : List Char → List Char → Option (List Char)
  | [], cs => some cs
  | _ :: _, [] => none
  | p :: ps, c :: cs => if lowerA c = lowerA p then litCI ps cs else none

/-- First literal of a list that consumes, in the alternation's order. -/
def altLits : List (List Char) → List Char → Option (List Char)
  | [], _ => none
  | p :: ps, cs =>
    match litL p cs with
    | some r => some r
    | none => altLits ps cs

def altLitsCI : List (List Char) → List Char → Option (List Char)
  | [], _ => none
  | p :: ps, cs =>
    match litCI p cs with
    | some r => some r
    | none => altLitsCI ps cs

/-- `\s+` (greedy; always followed by a non-space requirement here). -/
def ws1 (cs : List Char) : Option (List Char) :=
  match cs with
  | c :: cs1 => if isPySpace c then some (cs1.dropWhile isPySpace) else none
  | [] => none

/-- `\s*`. -/
def ws0 (cs : List Char) : List Char := cs.dropWhile isPySpace

/-- `["\']([^"\']+)["\']`: a quote of either kind, a non-empty run free of
both quote characters (captured), then a quote of either kind. -/
def quotedCap (cs : List Char) : Option (String × List Char) :=
  match cs with
  | q :: cs1 =>
    if q = dquoteC ∨ q = squoteC then
      let run := cs1.takeWhile (fun c => !(c == dquoteC) && !(c == squoteC))
      if run.isEmpty then none
      else
        match cs1.drop run.length with
        | q2 :: rest => if q2 = dquoteC ∨ q2 = squoteC then some (String.mk run, rest) else none
        | [] => none
    else none
  | [] => none

/-- `(q)([^q]+)(q)` for a single quote character `q` (the `atob` patterns). -/
def capUntil (q : Char) (cs : List Char) : Option (String × List Char) :=
  let run := cs.takeWhile (fun c => !(c == q))
  if run.isEmpty then none
  else
    match cs.drop run.length with
    | c :: rest => if c = q then some (String.mk run, rest) else none
    | [] => none

/-- `re.search`: try the matcher at each position, leftmost first (the empty
suffix included, where no pattern of the source can match). -/
def searchAux (f : List Char → Option α) : List Char → Option α
  | [] => f []
  | c :: cs =>
    match f (c :: cs) with
    | some r => some r
    | none => searchAux f cs

/-! ### Channel-id patterns (`extract_channel_id`) -/

/-- One channel-id pattern: a prefix matcher, then the captured `(\d+)`, then
a suffix matcher, optionally anchored by `$` (end of string, or just before a
final newline, as Python's `$` without `re.MULTILINE`). -/
structure UrlPat where
  pre : List Char → Option (List Char)
  post : List Char → Option (List Char)
  anchored : Bool

/-- `(\d+)`: the greedy non-empty digit run. -/
def capDigits (cs : List Char) : Option (String × List Char) :=
  if (cs.takeWhile Char.isDigit).isEmpty then none
  else some (String.mk (cs.takeWhile Char.isDigit), cs.drop (cs.takeWhile Char.isDigit).length)

def runPat (p : UrlPat) (cs : List Char) : Option String := do
  let cs1 ← p.pre cs
  let (g, cs2) ← capDigits cs1
  let cs3 ← p.post cs2
  if p.anchored then
    if cs3 = [] ∨ cs3 = ['\n'] then some g else none
  else some g

/-- `r'/premium(\d+)/mono\.m3u8$'` (searched with `re.IGNORECASE`). -/
def premiumPat : UrlPat := ⟨litCI "/premium".data, litCI "/mono.m3u8".data, true⟩

/-- `r'/(?:watch|stream|cast|player)/stream-(\d+)\.php'`. -/
def watchStreamPat : UrlPat :=
  ⟨fun cs => do
    let cs ← litCI "/".data cs
    let cs ← altLitsCI ["watch".data, "stream".data, "cast".data, "player".data] cs
    litCI "/stream-".data cs,
   litCI ".php".data, false⟩

/-- `r'watch\.php\?id=(\d+)'`. -/
def watchPhpPat : UrlPat := ⟨litCI "watch.php?id=".data, fun cs => some cs, false⟩

/-- `r'(?:%2F|/)stream-(\d+)\.php'`. -/
def encSlashPat : UrlPat :=
  ⟨fun cs => do
    let cs ← altLitsCI ["%2f".data, "/".data] cs
    litCI "stream-".data cs,
   litCI ".php".data, false⟩

/-- `r'stream-(\d+)\.php'`. -/
def streamPhpPat : UrlPat := ⟨litCI "stream-".data, litCI ".php".data, false⟩

/-- The ordered pattern list of `extract_channel_id`. -/
def channelIdPats : List UrlPat :=
  [premiumPat, watchStreamPat, watchPhpPat, encSlashPat, streamPhpPat]

def scanPat (p : UrlPat) (cs : List Char) : Option String := searchAux (runPat p) cs

/-- First pattern with a match wins. -/
def firstScan : List UrlPat → List Char → Option String
  | [], _ => none
  | p :: ps, cs =>
    match scanPat p cs with
    | some g => some g
    | none => firstScan ps cs

/-- `extract_channel_id` of the source: ordered patterns, first match's
capture group, `None` when nothing matches. -/
def extract_channel_id (url : String) : Option String := firstScan channelIdPats url.data

/-! ### The parameter decoder of `try_endpoint` -/

/-- `(?:kw )name\s*=\s*["\']([^"\']+)["\']` at one position, for the keyword
alternatives `kws` separated from `name` by `\s+`. -/
def kwNameAssignAt (kws : List (List Char)) (name : List Char) (cs : List Char) :
    Option String := do
  let cs ← altLits kws cs
  let cs ← ws1 cs
  let cs ← litL name cs
  let cs ← litL ['='] (ws0 cs)
  let (g, _) ← quotedCap (ws0 cs)
  pure g

/-- `name\s*=\s*["\']([^"\']+)["\']` at one position (no declaration keyword). -/
def bareNameAssignAt (name : List Char) (cs : List Char) : Option String := do
  let cs ← litL name cs
  let cs ← litL ['='] (ws0 cs)
  let (g, _) ← quotedCap (ws0 cs)
  pure g

/-- The six `channel_key_patterns` of the source, searched in order. -/
def channel_key_of (js : String) : Option String :=
  searchAux (kwNameAssignAt ["const".data] "CHANNEL_KEY".data) js.data <|>
  searchAux (kwNameAssignAt ["var".data] "CHANNEL_KEY".data) js.data <|>
  searchAux (kwNameAssignAt ["let".data] "CHANNEL_KEY".data) js.data <|>
  searchAux (bareNameAssignAt "channelKey".data) js.data <|>
  searchAux (kwNameAssignAt ["var".data] "channelKey".data) js.data <|>
  searchAux (kwNameAssignAt ["let".data, "const".data] "channelKey".data) js.data

/-- Per-item decoding of a bundle: each value is base64-decoded when possible
and kept verbatim otherwise. -/
def decodeBundleItems (obj : List (String × String)) : List (String × String) :=
  obj.map (fun p => (p.1, (b64decodeToStr p.2).getD p.2))

/-- `extract_xjz_format`: locate `(?:const|var|let)\s+XJZ\s*=\s*["\']...["\']`,
base64-decode the blob, `json.loads` it, then decode each item. -/
def extract_xjz_format (js : String) : Option (List (String × String)) := do
  let g ← searchAux (kwNameAssignAt ["const".data, "var".data, "let".data] "XJZ".data) js.data
  let s ← b64decodeToStr g
  let obj ← loadsFlatObj s
  pure (decodeBundleItems obj)

/-- `extract_bundle_format`: like XJZ but three whole-text searches, for
`const`, `var`, `let` declarations of `BUNDLE`, in that order. -/
def extract_bundle_format (js : String) : Option (List (String × String)) := do
  let g ← searchAux (kwNameAssignAt ["const".data] "BUNDLE".data) js.data <|>
          searchAux (kwNameAssignAt ["var".data] "BUNDLE".data) js.data <|>
          searchAux (kwNameAssignAt ["let".data] "BUNDLE".data) js.data
  let s ← b64decodeToStr g
  let obj ← loadsFlatObj s
  pure (decodeBundleItems obj)

/-- One `atob` pattern of `extract_var_old_format`:
`var (?:__)?name\s*=\s*atob\((q)([^q]+)(q)\)` with a literal space after
`var` and quote character `q`.  The optional `(?:__)?` tries the
double-underscore branch first, then the bare name, as the regex engine does. -/
def oldVarSpaceAt (q : Char) (name : List Char) (cs : List Char) : Option String := do
  let cs ← litL "var ".data cs
  let tail := fun (cs2 : List Char) => do
    let cs3 ← litL name cs2
    let cs3 ← litL ['='] (ws0 cs3)
    let cs3 ← litL "atob(".data (ws0 cs3)
    let cs3 ← litL [q] cs3
    let (g, cs4) ← capUntil q cs3
    let _ ← litL [')'] cs4
    pure g
  match litL "__".data cs with
  | some cs2 =>
    match tail cs2 with
    | some g => some g
    | none => tail cs
  | none => tail cs

/-- The third `atob` pattern:
`(?:var|let|const)\s+(?:__)?name\s*=\s*atob\("([^"]+)"\)`. -/
def oldVarKwAt (name : List Char) (cs : List Char) : Option String := do
  let cs ← altLits ["var".data, "let".data, "const".data] cs
  let cs ← ws1 cs
  let tail := fun (cs2 : List Char) => do
    let cs3 ← litL name cs2
    let cs3 ← litL ['='] (ws0 cs3)
    let cs3 ← litL "atob(".data (ws0 cs3)
    let cs3 ← litL [dquoteC] cs3
    let (g, cs4) ← capUntil dquoteC cs3
    let _ ← litL [')'] cs4
    pure g
  match litL "__".data cs with
  | some cs2 =>
    match tail cs2 with
    | some g => some g
    | none => tail cs
  | none => tail cs

/-- `extract_var_old_format`: the three patterns in order; a pattern whose
match fails to base64-decode falls through to the next pattern (the source's
`except Exception: continue`). -/
def extract_var_old_format (js : String) (name : String) : Option String :=
  ((searchAux (oldVarSpaceAt dquoteC name.data) js.data).bind b64decodeToStr) <|>
  ((searchAux (oldVarSpaceAt squoteC name.data) js.data).bind b64decodeToStr) <|>
  ((searchAux (oldVarKwAt name.data) js.data).bind b64decodeToStr)

/-- The six decoded parameters (still optional: `None` models both "not set"
and, via the empty string, any other falsy value). -/
structure DecodedParams where
  channel_key : Option String
  auth_ts : Option String
  auth_rnd : Option String
  auth_sig : Option String
  auth_host : Option String
  auth_php : Option String
deriving DecidableEq

/-- Python truthiness of a decoded bundle: present and a non-empty dict. -/
def dictTruthy (d : Option (List (String × String))) : Bool :=
  match d with
  | some l => !l.isEmpty
  | none => false

/-- The strategy chain of `try_endpoint` (lines 374–403), generic in the
three strategies so that non-interference of the lower-priority ones is a
statement about the source's control flow. -/
def decodeParamsGen (fx fb : String → Option (List (String × String)))
    (fleg : String → String → Option String) (js : String) : DecodedParams :=
  let ck := channel_key_of js
  let xjz := fx js
  if dictTruthy xjz then
    let d := xjz.getD []
    ⟨ck, d.lookup "b_ts", d.lookup "b_rnd", d.lookup "b_sig", d.lookup "b_host",
     d.lookup "b_script"⟩
  else
    let bd := fb js
    if dictTruthy bd then
      let d := bd.getD []
      ⟨ck, d.lookup "b_ts", d.lookup "b_rnd", d.lookup "b_sig", d.lookup "b_host",
       d.lookup "b_script"⟩
    else
      ⟨ck, fleg js "c", fleg js "d", fleg js "e", fleg js "a", fleg js "b"⟩

/-- The decoder exactly as the source wires it. -/
def decodeParams (js : String) : DecodedParams :=
  decodeParamsGen extract_xjz_format extract_bundle_format extract_var_old_format js

/-- Python falsiness of a parameter (`not x`): absent or empty. -/
def falsyO (x : Option String) : Bool :=
  match x with
  | none => true
  | some s => s.isEmpty

/-- `missing_params` accumulation of lines 406–418, in the source's order. -/
def missing_params (p : DecodedParams) : List String :=
  (if falsyO p.channel_key then ["channel_key"] else []) ++
  (if falsyO p.auth_ts then ["auth_ts"] else []) ++
  (if falsyO p.auth_rnd then ["auth_rnd"] else []) ++
  (if falsyO p.auth_sig then ["auth_sig"] else []) ++
  (if falsyO p.auth_host then ["auth_host"] else []) ++
  (if falsyO p.auth_php then ["auth_php"] else [])

/-! ### Auth handshake URL (lines 424–438) -/

/-- Python `str.strip()` (ASCII whitespace fragment). -/
def pyStrip (s : String) : String :=
  String.mk (((s.data.dropWhile isPySpace).reverse.dropWhile isPySpace).reverse)

/-- Lines 426–429: a stripped `a.php` is rewritten to `/auth.php`; any other
value is kept verbatim. -/
def normalize_auth_php (php : String) : String :=
  let n := String.mk ((pyStrip php).data.dropWhile (fun c => c == '/'))
  if n = "a.php" then "/auth.php" else php

def endsWithSlash (s : String) : Bool := s.data.getLast? == some '/'

def startsWithSlash (s : String) : Bool := s.data.head? == some '/'

/-- Lines 431–436: join `auth_host` and `auth_php` avoiding a doubled or a
missing slash between them. -/
def joinAuth (host php : String) : String :=
  if endsWithSlash host && startsWithSlash php then String.mk host.data.dropLast ++ php
  else if !endsWithSlash host && !startsWithSlash php then host ++ "/" ++ php
  else host ++ php

/-- `urllib.parse.quote_plus` on one character. -/
def quotePlusChar (c : Char) : List Char :=
  if isAlnumA c || c = '_' || c = '.' || c = '-' || c = '~' then [c]
  else if c = ' ' then ['+']
  else (utf8EncodeChar c).flatMap (fun b => ['%', hexDigUpper (b / 16), hexDigUpper (b % 16)])

/-- `urllib.parse.quote_plus`. -/
def quote_plus (s : String) : String := String.mk (s.data.flatMap quotePlusChar)

/-- Lines 424–438: the full auth URL, query string included (`sig` is the
`quote_plus`-encoded signature). -/
def build_auth_url (auth_host auth_php channel_key auth_ts auth_rnd auth_sig : String) :
    String :=
  joinAuth auth_host (normalize_auth_php auth_php) ++ "?channel_id=" ++ channel_key ++
    "&ts=" ++ auth_ts ++ "&rnd=" ++ auth_rnd ++ "&sig=" ++ quote_plus auth_sig

/-- Lines 405–438 as one step: check the decoded parameters, raising
`ExtractorError("Parametri mancanti: ...")` when any is falsy, and otherwise
proceed to the auth handshake with the built auth URL. -/
def decode_and_auth (js : String) : Except String (DecodedParams × String) :=
  let p := decodeParams js
  let miss := missing_params p
  if miss.isEmpty then
    .ok (p, build_auth_url (p.auth_host.getD "") (p.auth_php.getD "") (p.channel_key.getD "")
      (p.auth_ts.getD "") (p.auth_rnd.getD "") (p.auth_sig.getD ""))
  else .error ("Parametri mancanti: " ++ joinComma miss)

/-! ### Server resolution (lines 461–465) -/

/-- The final media-manifest URL templated from `server_key` and
`channel_key`. -/
def clean_m3u8_url (server_key channel_key : String) : String :=
  if server_key = "top1/cdn" then
    "https://top1.newkso.ru/top1/cdn/" ++ channel_key ++ "/mono.m3u8"
  else
    "https://" ++ server_key ++ "new.newkso.ru/" ++ server_key ++ "/" ++ channel_key ++
      "/mono.m3u8"

/-! ### The `extract` flow (cache probe, endpoint fallback)

Network effects are oracles: `tryEp` is the outcome of `try_endpoint` for an
endpoint segment (the base URL and channel id being fixed for the whole
call), `probe` the outcome of the HEAD validity probe.  `get_daddylive_base_url`
returns `"https://daddylive.sx/"` on both of its branches and so is a
constant.  The trace records the cache dictionary, every snapshot passed to
`_save_cache`, and every HEAD probe issued. -/

/-- The slice of a cached stream-data dict the `extract` flow reads.  Both
fields are read with `dict.get` and so may be absent. -/
structure StreamData where
  destination_url : Option String
  request_headers : Option (List (String × String))
deriving DecidableEq

/-- Outcome of the HEAD probe: a status, or an exception (caught by the
source). -/
inductive ProbeOutcome where
  | status (n : Nat)
  | exn (e : String)
deriving DecidableEq

/-- Python dict assignment `m[k] = v`. -/
def insertKey (m : List (String × StreamData)) (k : String) (v : StreamData) :
    List (String × StreamData) :=
  if m.any (fun p => p.1 == k) then m.map (fun p => if p.1 == k then (k, v) else p)
  else m ++ [(k, v)]

/-- Python `del m[k]`. -/
def eraseKey (m : List (String × StreamData)) (k : String) : List (String × StreamData) :=
  m.filter (fun p => p.1 != k)

/-- The mutable state `extract` touches besides its return value. -/
structure ExtractTrace where
  cache : List (String × StreamData)
  saves : List (List (String × StreamData))
  probes : List (String × List (String × String))
deriving DecidableEq

/-- The fixed endpoint order of lines 541. -/
def dlhdEndpoints : List String := ["stream/", "cast/", "player/", "watch/"]

/-- Lines 544–563: try each endpoint in order; on the first success store the
result in the cache, persist, and return; on failure remember the exception
and continue; after the list, raise carrying the last exception. -/
def endpointLoop (tryEp : String → Except String StreamData) (cid : String)
    (tr : ExtractTrace) : List String → Option String → Except String StreamData × ExtractTrace
  | [], last =>
    (.error (match last with
      | some l => "Tutti gli endpoint DLHD hanno fallito. Ultimo errore: " ++ l
      | none => "Tutti gli endpoint DLHD hanno fallito senza dettagli."), tr)
  | ep :: rest, lastE =>
    match tryEp ep with
    | .ok r =>
      let c := insertKey tr.cache cid r
      (.ok r, { tr with cache := c, saves := tr.saves ++ [c] })
    | .error e => endpointLoop tryEp cid tr rest (some e)

/-- Line 565–566: any escaping exception is wrapped in the terminal
`ExtractorError`. -/
def wrapOuter (r : Except String StreamData × ExtractTrace) :
    Except String StreamData × ExtractTrace :=
  (match r.1 with
   | .ok x => .ok x
   | .error e => .error ("Estrazione DLHD completamente fallita: " ++ e), r.2)

/-- Lines 503–566 of `extract`: channel-id extraction, the cache probe of
lines 510–536, then the endpoint fallback. -/
def extractFlow (probe : String → List (String × String) → ProbeOutcome)
    (tryEp : String → Except String StreamData) (url : String) (force_refresh : Bool)
    (cache0 : List (String × StreamData)) : Except String StreamData × ExtractTrace :=
  let tr0 : ExtractTrace := ⟨cache0, [], []⟩
  match extract_channel_id url with
  | none =>
    (.error ("Estrazione DLHD completamente fallita: Impossibile estrarre channel ID da " ++
      url), tr0)
  | some cid =>
    match (if force_refresh then none else cache0.lookup cid) with
    | some cd =>
      let hs := cd.request_headers.getD []
      match cd.destination_url with
      | some u =>
        if u = "" then
          let c := eraseKey cache0 cid
          wrapOuter (endpointLoop tryEp cid ⟨c, [c], []⟩ dlhdEndpoints none)
        else
          let tr1 : ExtractTrace := { tr0 with probes := [(u, hs)] }
          match probe u hs with
          | .status 200 => (.ok cd, tr1)
          | _ =>
            let c := eraseKey cache0 cid
            wrapOuter (endpointLoop tryEp cid { tr1 with cache := c, saves := [c] }
              dlhdEndpoints none)
      | none =>
        let c := eraseKey cache0 cid
        wrapOuter (endpointLoop tryEp cid ⟨c, [c], []⟩ dlhdEndpoints none)
    | none => wrapOuter (endpointLoop tryEp cid tr0 dlhdEndpoints none)

/-! ### `_make_robust_request` (lines 118–187)

The attempt outcomes are an oracle indexed by the attempt number.  The model
records the result, the sequence of `asyncio.sleep` delays, and the attempt
indices tried. -/

/-- Outcome of one attempt: a response, a transport-class exception (the
`aiohttp`/`OSError` tuple of line 157), or any other exception. -/
inductive ReqOutcome where
  | success (status : Nat) (body : String)
  | transport (e : String)
  | nontransport (e : String)
deriving DecidableEq

structure RobustResult where
  result : Except String (Option (Nat × String))
  sleeps : List Nat
  calls : List Nat

/-- The `for attempt in range(retries)` loop; `fuel` is the number of
iterations left, kept equal to `retries - attempt` by the wrapper.  A `.ok
none` result models Python falling off the loop (only reachable with
`retries = 0`). -/
def robustAux (url : String) (oracle : Nat → ReqOutcome) (retries initial_delay : Nat) :
    Nat → Nat → RobustResult
  | _, 0 => ⟨.ok none, [], []⟩
  | attempt, fuel + 1 =>
    match oracle attempt with
    | .success st body => ⟨.ok (some (st, body)), [], [attempt]⟩
    | .transport e =>
      if attempt = retries - 1 then
        ⟨.error ("Tutti i " ++ toString retries ++ " tentativi falliti per " ++ url ++ ": " ++
          e), [], [attempt]⟩
      else
        let r := robustAux url oracle retries initial_delay (attempt + 1) fuel
        ⟨r.result, initial_delay * 2 ^ attempt :: r.sleeps, attempt :: r.calls⟩
    | .nontransport e =>
      if attempt = retries - 1 then
        ⟨.error ("Errore finale per " ++ url ++ ": " ++ e), [], [attempt]⟩
      else
        let r := robustAux url oracle retries initial_delay (attempt + 1) fuel
        ⟨r.result, initial_delay :: r.sleeps, attempt :: r.calls⟩

/-- `_make_robust_request url …` with explicit `retries`/`initial_delay`
(the source's defaults are `3` and `2`). -/
def make_robust_request (url : String) (oracle : Nat → ReqOutcome)
    (retries initial_delay : Nat) : RobustResult :=
  robustAux url oracle retries initial_delay 0 retries

/-! ### Size bounds used by the cache round-trip proof -/

/-- A bound dominating each header key/value length and the member count. -/
def sumKV (hs : List (String × String)) : Nat :=
  hs.foldr (fun p a => p.1.length + p.2.length + 1 + a) 0

def authSum (a : CacheAuthData) : Nat :=
  a.channel_key.length + a.auth_ts.length + a.auth_rnd.length + a.auth_sig.length +
    a.auth_host.length + a.auth_php.length + a.iframe_url.length

/-- A bound dominating every fuel requirement of `parseStream` on the
serialised form of `r` (the constant covers the literal member keys). -/
def streamBound (r : ResolvedStream) : Nat :=
  18 + r.destination_url.length + r.mediaflow_endpoint.length + sumKV r.request_headers +
    authSum r.auth_data

def cacheBound (m : List (String × ResolvedStream)) : Nat :=
  m.foldr (fun p a => p.1.length + streamBound p.2 + 1 + a) 0

/-! ### Concrete fixtures for the witnesses -/

/-- A page containing only an XJZ-style bundle (plus the channel key); the
blob is the base64 of a JSON object whose values are base64 of the auth
fields. -/
def xjzPage : String :=
  "var CHANNEL_KEY = \"premium99\"; const XJZ = \"eyJiX2hvc3QiOiAiYUhSMGNITTZMeTloZFhSb0xtVjRZVzF3YkdVdiIsICJiX3NjcmlwdCI6ICJZUzV3YUhBPSIsICJiX3RzIjogIk1UY3dNQT09IiwgImJfcm5kIjogIk5EST0iLCAiYl9zaWciOiAiY3l0blBTOTQifQ==\";"

/-- The dict `extract_xjz_format` produces from `xjzPage`. -/
def xjzDict : List (String × String) :=
  [("b_host", "https://auth.example/"), ("b_script", "a.php"), ("b_ts", "1700"),
   ("b_rnd", "42"), ("b_sig", "s+g=/x")]

/-- An endpoint oracle failing on `stream/` and `cast/` and succeeding on
`player/`. -/
def epOkPlayer : String → Except String StreamData :=
  fun ep => if ep = "player/" then .ok ⟨some "P", some []⟩ else .error ("fail " ++ ep)

/-- An endpoint oracle failing everywhere. -/
def epAllFail : String → Except String StreamData := fun ep => .error ("fail " ++ ep)

/-- A constant probe oracle. -/
def probeOf (o : ProbeOutcome) : String → List (String × String) → ProbeOutcome :=
  fun _ _ => o

/-- A cache holding a probe-able entry for channel `545`. -/
def cacheC : List (String × StreamData) := [("545", ⟨some "C", some [("h", "v")]⟩)]

/-- A cache whose entry for channel `545` has no `destination_url`. -/
def cacheNoUrl : List (String × StreamData) := [("545", ⟨none, some []⟩)]

def watchUrl : String := "https://dlhd.click/watch/stream-545.php"

/-! ## Theorems -/

/-- C1: `ServerResolution` templating — the literal server key `top1/cdn`
with channel key `123` yields the fixed CDN path, and every other server key
`k` with channel key `c` yields
`https://{k}new.newkso.ru/{k}/{c}/mono.m3u8` (e.g. `abc`/`456`). -/
theorem clean_m3u8_url_spec :
    clean_m3u8_url "top1/cdn" "123" = "https://top1.newkso.ru/top1/cdn/123/mono.m3u8" ∧
    clean_m3u8_url "abc" "456" = "https://abcnew.newkso.ru/abc/456/mono.m3u8" ∧
    ∀ k c : String, k ≠ "top1/cdn" →
      clean_m3u8_url k c =
        "https://" ++ k ++ "new.newkso.ru/" ++ k ++ "/" ++ c ++ "/mono.m3u8" := by
  refine ⟨rfl, rfl, fun k c hk => ?_⟩
  simp [clean_m3u8_url, hk]

/-- Witness for C1 at server key `xyz`, channel key `9`. -/
theorem clean_m3u8_url_spec_witness :
    clean_m3u8_url "xyz" "9" =
      "https://" ++ "xyz" ++ "new.newkso.ru/" ++ "xyz" ++ "/" ++ "9" ++ "/mono.m3u8" :=
  clean_m3u8_url_spec.2.2 "xyz" "9" (by decide)

/-- C2: `AuthHandshake` URL joining — for `auth_host = "https://x.test/"`,
`auth_php = "/auth.php"` and for `auth_host = "https://x.test"`,
`auth_php = "auth.php"`, the built auth URL is
`https://x.test/auth.php?channel_id=…&ts=…&rnd=…&sig=…` with the signature
`quote_plus`-encoded: no double or missing slash in either case. -/
theorem build_auth_url_join_spec :
    ∀ ck ts rnd sig : String,
      build_auth_url "https://x.test/" "/auth.php" ck ts rnd sig =
        "https://x.test/auth.php?channel_id=" ++ ck ++ "&ts=" ++ ts ++ "&rnd=" ++ rnd ++
          "&sig=" ++ quote_plus sig ∧
      build_auth_url "https://x.test" "auth.php" ck ts rnd sig =
        "https://x.test/auth.php?channel_id=" ++ ck ++ "&ts=" ++ ts ++ "&rnd=" ++ rnd ++
          "&sig=" ++ quote_plus sig := by
  intro ck ts rnd sig
  exact ⟨rfl, rfl⟩

/-- C9 counterexample: with the default `retries=3`, a persistently failing
non-transport exception is attempted three times — i.e. retried twice, not
"exactly once" as claimed (one retry would mean two attempts). -/
theorem robust_nontransport_counterexample :
    (make_robust_request "http://u" (fun _ => ReqOutcome.nontransport "boom") 3 2).calls =
      [0, 1, 2] ∧
    ¬ (make_robust_request "http://u" (fun _ => ReqOutcome.nontransport "boom") 3 2).calls.length = 2 := by
  constructor
  · rfl
  · decide

/-- C9 (amended): with `retries = 3`, a persistent non-transport exception is
attempted three times, each retry after the fixed delay `initial_delay`, and
is then surfaced wrapped in the terminal error; persistent transport failures
back off exponentially with `delay = initial_delay * 2^attempt` before being
wrapped with the attempt count. -/
theorem robust_retry_spec :
    ∀ (url : String) (oracle : Nat → ReqOutcome) (d : Nat) (e0 e1 e2 : String),
      (oracle 0 = .nontransport e0 → oracle 1 = .nontransport e1 →
        oracle 2 = .nontransport e2 →
        make_robust_request url oracle 3 d =
          ⟨.error ("Errore finale per " ++ url ++ ": " ++ e2), [d, d], [0, 1, 2]⟩) ∧
      (oracle 0 = .transport e0 → oracle 1 = .transport e1 → oracle 2 = .transport e2 →
        make_robust_request url oracle 3 d =
          ⟨.error ("Tutti i 3 tentativi falliti per " ++ url ++ ": " ++ e2),
           [d * 2 ^ 0, d * 2 ^ 1], [0, 1, 2]⟩) := by
  intro url oracle d e0 e1 e2
  constructor
  · intro h0 h1 h2
    simp [make_robust_request, robustAux, h0, h1, h2]
  · intro h0 h1 h2
    simp only [make_robust_request, robustAux, h0, h1, h2]
    norm_num
    rfl

/-- Witness for C9's amended statement with a concrete failing oracle. -/
theorem robust_retry_spec_witness :
    make_robust_request "u" (fun _ => ReqOutcome.nontransport "x") 3 5 =
      ⟨.error ("Errore finale per " ++ "u" ++ ": " ++ "x"), [5, 5], [0, 1, 2]⟩ :=
  (robust_retry_spec "u" (fun _ => ReqOutcome.nontransport "x") 5 "x" "x" "x").1 rfl rfl rfl

/-- One step short of the claim: on any endpoint list split as
`pre ++ ep :: rest` where every endpoint of `pre` fails and `ep` succeeds
with `r`, the loop returns `r`, stores it in the cache and persists that
snapshot, regardless of what follows `ep`. -/
theorem endpointLoop_first_ok (tryEp : String → Except String StreamData) (cid : String)
    (tr : ExtractTrace) (pre : List String) (ep : String) (rest : List String)
    (r : StreamData) :
    ∀ lastO : Option String,
      (∀ e ∈ pre, ∃ msg, tryEp e = .error msg) → tryEp ep = .ok r →
      endpointLoop tryEp cid tr (pre ++ ep :: rest) lastO =
        (.ok r, ⟨insertKey tr.cache cid r, tr.saves ++ [insertKey tr.cache cid r],
          tr.probes⟩) := by
  induction pre with
  | nil =>
    intro lastO _ hok
    simp [endpointLoop, hok]
  | cons p ps ih =>
    intro lastO hpre hok
    obtain ⟨msg, hmsg⟩ := hpre p (by simp)
    simp only [List.cons_append]
    simp [endpointLoop, hmsg]
    exact ih (some msg) (fun e he => hpre e (by simp [he])) hok

/-- C5: `EndpointFallback` iterates `stream/`, `cast/`, `player/`, `watch/` in
the fixed order: for every decomposition of that list as `pre ++ ep :: rest`
in which each endpoint of `pre` fails and `ep` is the first to succeed, with
result `r`, the loop returns `r`, stores it in the cache and persists that
snapshot; the endpoints after `ep` are never consulted — any oracle that also
fails on `pre` and succeeds on `ep` with `r` produces the identical outcome,
whatever it does on `rest`; and if every endpoint fails, the last error is
the one surfaced in the terminal failure message. -/
theorem endpoint_fallback_spec :
    (∀ (tryEp : String → Except String StreamData) (cid : String) (tr : ExtractTrace)
       (pre : List String) (ep : String) (rest : List String) (r : StreamData),
      dlhdEndpoints = pre ++ ep :: rest →
      (∀ e ∈ pre, ∃ msg, tryEp e = .error msg) →
      tryEp ep = .ok r →
      endpointLoop tryEp cid tr dlhdEndpoints none =
        (.ok r, ⟨insertKey tr.cache cid r, tr.saves ++ [insertKey tr.cache cid r],
          tr.probes⟩) ∧
      (∀ tryEp2 : String → Except String StreamData,
        (∀ e ∈ pre, ∃ msg, tryEp2 e = .error msg) → tryEp2 ep = .ok r →
        endpointLoop tryEp2 cid tr dlhdEndpoints none =
          endpointLoop tryEp cid tr dlhdEndpoints none)) ∧
    (∀ (tryEp : String → Except String StreamData) (cid : String) (tr : ExtractTrace)
       (e1 e2 e3 e4 : String),
      tryEp "stream/" = .error e1 → tryEp "cast/" = .error e2 →
      tryEp "player/" = .error e3 → tryEp "watch/" = .error e4 →
      endpointLoop tryEp cid tr dlhdEndpoints none =
        (.error ("Tutti gli endpoint DLHD hanno fallito. Ultimo errore: " ++ e4), tr)) := by
  constructor
  · intro tryEp cid tr pre ep rest r hdec hpre hok
    have hmain : endpointLoop tryEp cid tr dlhdEndpoints none =
        (.ok r, ⟨insertKey tr.cache cid r, tr.saves ++ [insertKey tr.cache cid r],
          tr.probes⟩) := by
      rw [hdec]
      exact endpointLoop_first_ok tryEp cid tr pre ep rest r none hpre hok
    refine ⟨hmain, fun tryEp2 hpre2 hok2 => ?_⟩
    rw [hmain, hdec]
    exact endpointLoop_first_ok tryEp2 cid tr pre ep rest r none hpre2 hok2
  · intro tryEp cid tr e1 e2 e3 e4 h1 h2 h3 h4
    simp [dlhdEndpoints, endpointLoop, h1, h2, h3, h4]

/-- Witness for C5: the split `["stream/", "cast/"] ++ "player/" :: ["watch/"]`
with a concrete oracle failing before and succeeding on `player/`. -/
theorem endpoint_fallback_spec_witness :
    endpointLoop epOkPlayer "545" ⟨[], [], []⟩ dlhdEndpoints none =
      (.ok ⟨some "P", some []⟩,
       ⟨insertKey [] "545" ⟨some "P", some []⟩, [insertKey [] "545" ⟨some "P", some []⟩],
        []⟩) := by
  have h := (endpoint_fallback_spec.1 epOkPlayer "545" ⟨[], [], []⟩ ["stream/", "cast/"]
    "player/" ["watch/"] ⟨some "P", some []⟩ rfl
    (by
      intro e he
      simp only [List.mem_cons, List.not_mem_nil, or_false] at he
      rcases he with rfl | rfl <;> exact ⟨_, rfl⟩)
    rfl).1
  simpa using h

/-- The endpoint loop issues no HEAD probes: the probe trace is whatever the
cache-probe phase left there. -/
theorem endpointLoop_probes_eq (tryEp : String → Except String StreamData) (cid : String)
    (tr : ExtractTrace) (l : List String) (lastO : Option String) :
    (endpointLoop tryEp cid tr l lastO).2.probes = tr.probes := by
  induction l generalizing lastO with
  | nil => simp [endpointLoop]
  | cons ep rest ih =>
    cases h : tryEp ep with
    | ok r => simp [endpointLoop, h]
    | error e => simp [endpointLoop, h, ih]

/-- `wrapOuter` only rewraps the result; the trace is untouched. -/
theorem wrapOuter_trace (r : Except String StreamData × ExtractTrace) :
    (wrapOuter r).2 = r.2 := rfl

/-- C6: with `force_refresh = False` and a cached entry carrying a non-empty
`destination_url`, a single HEAD probe is issued against that URL with the
stored headers; a 200 returns the cached entry immediately (no save, no
further pipeline work); any other status or an exception deletes the entry,
persists the pruned cache, and continues with exactly the fresh endpoint
fallback — the invalidation itself never being the surfaced outcome. -/
theorem cache_probe_spec :
    ∀ (probe : String → List (String × String) → ProbeOutcome)
      (tryEp : String → Except String StreamData) (url cid u : String) (cd : StreamData)
      (cache0 : List (String × StreamData)),
      extract_channel_id url = some cid →
      cache0.lookup cid = some cd →
      cd.destination_url = some u → u ≠ "" →
      (probe u (cd.request_headers.getD []) = .status 200 →
        extractFlow probe tryEp url false cache0 =
          (.ok cd, ⟨cache0, [], [(u, cd.request_headers.getD [])]⟩)) ∧
      (probe u (cd.request_headers.getD []) ≠ .status 200 →
        extractFlow probe tryEp url false cache0 =
          wrapOuter (endpointLoop tryEp cid
            ⟨eraseKey cache0 cid, [eraseKey cache0 cid], [(u, cd.request_headers.getD [])]⟩
            dlhdEndpoints none)) := by
  intro probe tryEp url cid u cd cache0 hcid hlook hdu hne
  constructor
  · intro h200
    simp [extractFlow, hcid, hlook, hdu, hne, h200]
  · intro hno
    cases ho : probe u (cd.request_headers.getD []) with
    | status n =>
      have hn : ¬ n = 200 := by
        intro h
        exact hno (by rw [ho, h])
      simp [extractFlow, hcid, hlook, hdu, hne, ho, hn]
    | exn e =>
      simp [extractFlow, hcid, hlook, hdu, hne, ho]

/-- Witness for C6, valid-probe side, with a concrete cache and oracle. -/
theorem cache_probe_spec_witness :
    extractFlow (probeOf (.status 200)) epOkPlayer watchUrl false cacheC =
      (.ok ⟨some "C", some [("h", "v")]⟩,
       ⟨cacheC, [], [("C", [("h", "v")])]⟩) := by
  have h := (cache_probe_spec (probeOf (.status 200)) epOkPlayer watchUrl "545" "C"
    ⟨some "C", some [("h", "v")]⟩ cacheC rfl rfl rfl (by decide)).1 rfl
  simpa using h

/-- C10: with `force_refresh = False` and a cached entry whose
`destination_url` is absent or empty, no probe is issued at all; the entry is
deleted, the pruned cache persisted, and the flow continues with exactly
the fresh endpoint fallback. -/
theorem cache_missing_url_spec :
    ∀ (probe : String → List (String × String) → ProbeOutcome)
      (tryEp : String → Except String StreamData) (url cid : String) (cd : StreamData)
      (cache0 : List (String × StreamData)),
      extract_channel_id url = some cid →
      cache0.lookup cid = some cd →
      (cd.destination_url = none ∨ cd.destination_url = some "") →
      extractFlow probe tryEp url false cache0 =
        wrapOuter (endpointLoop tryEp cid ⟨eraseKey cache0 cid, [eraseKey cache0 cid], []⟩
          dlhdEndpoints none) ∧
      (extractFlow probe tryEp url false cache0).2.probes = [] := by
  intro probe tryEp url cid cd cache0 hcid hlook hdu
  have hmain : extractFlow probe tryEp url false cache0 =
      wrapOuter (endpointLoop tryEp cid ⟨eraseKey cache0 cid, [eraseKey cache0 cid], []⟩
        dlhdEndpoints none) := by
    rcases hdu with h | h
    · simp [extractFlow, hcid, hlook, h]
    · simp [extractFlow, hcid, hlook, h]
  refine ⟨hmain, ?_⟩
  rw [hmain, wrapOuter_trace, endpointLoop_probes_eq]

/-- Witness for C10 with a concrete url-less cache entry. -/
theorem cache_missing_url_spec_witness :
    extractFlow (probeOf (.status 200)) epOkPlayer watchUrl false cacheNoUrl =
      wrapOuter (endpointLoop epOkPlayer "545"
        ⟨eraseKey cacheNoUrl "545", [eraseKey cacheNoUrl "545"], []⟩ dlhdEndpoints none) :=
  (cache_missing_url_spec (probeOf (.status 200)) epOkPlayer watchUrl "545" ⟨none, some []⟩
    cacheNoUrl rfl rfl (Or.inl rfl)).1

/-- A capture produced by `capDigits` is a non-empty digit string. -/
theorem capDigits_digits (cs : List Char) (g : String) (r : List Char)
    (h : capDigits cs = some (g, r)) : g ≠ "" ∧ g.data.all Char.isDigit := by
  unfold capDigits at h
  split at h
  · simp at h
  · rename_i hne
    rw [Option.some.injEq, Prod.mk.injEq] at h
    obtain ⟨hg, _⟩ := h
    subst hg
    refine ⟨?_, ?_⟩
    · intro hc
      apply hne
      have hrun : cs.takeWhile Char.isDigit = [] := congrArg String.data hc
      rw [hrun]
      rfl
    · simp only [List.all_eq_true]
      intro c hc
      exact List.mem_takeWhile_imp hc

/-- A capture produced by `runPat` is a non-empty digit string. -/
theorem runPat_digits (p : UrlPat) (cs : List Char) (g : String)
    (h : runPat p cs = some g) : g ≠ "" ∧ g.data.all Char.isDigit := by
  unfold runPat at h
  simp only [Option.bind_eq_bind, Option.bind_eq_some] at h
  obtain ⟨cs1, _, ⟨g2, cs2⟩, h2, h⟩ := h
  dsimp only at h
  obtain ⟨cs3, _, h⟩ := h
  have hg : g = g2 := by
    split at h
    · split at h
      · cases h; rfl
      · cases h
    · cases h; rfl
  subst hg
  exact capDigits_digits cs1 g cs2 h2

/-- A capture found by `searchAux (runPat p)` is a non-empty digit string. -/
theorem scanPat_digits (p : UrlPat) (cs : List Char) (g : String)
    (h : scanPat p cs = some g) : g ≠ "" ∧ g.data.all Char.isDigit := by
  induction cs with
  | nil => exact runPat_digits p [] g h
  | cons c rest ih =>
    unfold scanPat searchAux at h
    cases h1 : runPat p (c :: rest) with
    | some g2 =>
      rw [h1] at h
      cases h
      exact runPat_digits p (c :: rest) g h1
    | none =>
      rw [h1] at h
      exact ih h

/-- Any capture returned by `firstScan` is a non-empty digit string. -/
theorem firstScan_digits (l : List UrlPat) (cs : List Char) (g : String)
    (h : firstScan l cs = some g) : g ≠ "" ∧ g.data.all Char.isDigit := by
  induction l with
  | nil => simp [firstScan] at h
  | cons p rest ih =>
    unfold firstScan at h
    cases h1 : scanPat p cs with
    | some g2 =>
      rw [h1] at h
      cases h
      exact scanPat_digits p cs g h1
    | none =>
      rw [h1] at h
      exact ih h

/-- First-match-wins over a pattern list. -/
theorem firstScan_first (ps : List UrlPat) (p : UrlPat) (qs : List UrlPat) (cs : List Char)
    (g : String) (hnone : ∀ q ∈ ps, scanPat q cs = none) (hp : scanPat p cs = some g) :
    firstScan (ps ++ p :: qs) cs = some g := by
  induction ps with
  | nil => simp [firstScan, hp]
  | cons q rest ih =>
    have hq : scanPat q cs = none := hnone q (by simp)
    simp only [List.cons_append, firstScan, hq]
    exact ih (fun q' hq' => hnone q' (by simp [hq']))

/-- All patterns failing means no channel id. -/
theorem firstScan_none (ps : List UrlPat) (cs : List Char)
    (hnone : ∀ q ∈ ps, scanPat q cs = none) : firstScan ps cs = none := by
  induction ps with
  | nil => rfl
  | cons q rest ih =>
    have hq : scanPat q cs = none := hnone q (by simp)
    simp only [firstScan, hq]
    exact ih (fun q' hq' => hnone q' (by simp [hq']))

/-- C7: for a URL on which some pattern matches, `extract_channel_id` returns
the (numeric, non-empty) capture of the first matching pattern in the ordered
list; for a URL matching no pattern it returns `None` and the whole request
fails with the terminal wrapped error, producing no partial channel id. -/
theorem extract_channel_id_spec :
    (∀ (url : String) (ps : List UrlPat) (p : UrlPat) (qs : List UrlPat) (g : String),
      channelIdPats = ps ++ p :: qs →
      (∀ q ∈ ps, scanPat q url.data = none) →
      scanPat p url.data = some g →
      extract_channel_id url = some g) ∧
    (∀ (url g : String), extract_channel_id url = some g →
      g ≠ "" ∧ g.data.all Char.isDigit) ∧
    (∀ url : String, (∀ p ∈ channelIdPats, scanPat p url.data = none) →
      extract_channel_id url = none ∧
      ∀ (probe : String → List (String × String) → ProbeOutcome)
        (tryEp : String → Except String StreamData) (fr : Bool)
        (c0 : List (String × StreamData)),
        extractFlow probe tryEp url fr c0 =
          (.error ("Estrazione DLHD completamente fallita: Impossibile estrarre channel ID da "
            ++ url), ⟨c0, [], []⟩)) := by
  refine ⟨?_, ?_, ?_⟩
  · intro url ps p qs g hsplit hnone hp
    unfold extract_channel_id
    rw [hsplit]
    exact firstScan_first ps p qs url.data g hnone hp
  · intro url g h
    exact firstScan_digits channelIdPats url.data g h
  · intro url hnone
    have hcid : extract_channel_id url = none := firstScan_none channelIdPats url.data hnone
    refine ⟨hcid, fun probe tryEp fr c0 => ?_⟩
    simp [extractFlow, hcid]

/-- Witness for C7: the second pattern is the first to match this URL. -/
theorem extract_channel_id_spec_witness :
    extract_channel_id "https://dlhd.click/watch/stream-545.php" = some "545" :=
  extract_channel_id_spec.1 "https://dlhd.click/watch/stream-545.php" [premiumPat]
    watchStreamPat [watchPhpPat, encSlashPat, streamPhpPat] "545" rfl
    (by intro q hq; simp only [List.mem_singleton] at hq; subst hq; rfl) rfl

/-- C3: when the XJZ strategy finds a (non-empty) bundle, the decoded auth
fields are exactly the XJZ bundle's `b_ts`/`b_rnd`/`b_sig`/`b_host`/`b_script`
entries, whatever the BUNDLE and legacy strategies would say — they are never
consulted and cannot override the result; and the source's decoder is this
chain with the three concrete strategies plugged in. -/
theorem xjz_priority_spec :
    ∀ (fb : String → Option (List (String × String)))
      (fleg : String → String → Option String) (js : String) (d : List (String × String)),
      extract_xjz_format js = some d → d ≠ [] →
      decodeParamsGen extract_xjz_format fb fleg js =
        ⟨channel_key_of js, d.lookup "b_ts", d.lookup "b_rnd", d.lookup "b_sig",
         d.lookup "b_host", d.lookup "b_script"⟩ ∧
      decodeParams js =
        decodeParamsGen extract_xjz_format extract_bundle_format extract_var_old_format js := by
  intro fb fleg js d hx hne
  refine ⟨?_, rfl⟩
  have ht : dictTruthy (extract_xjz_format js) = true := by
    rw [hx]
    cases hd : d with
    | nil => exact absurd hd hne
    | cons x tl => simp [dictTruthy, hd]
  rw [hx] at ht
  simp [decodeParamsGen, hx, ht]

set_option maxRecDepth 8192 in
/-- Witness for C3 on a concrete page containing only an XJZ bundle, with
vacuous lower-priority strategies. -/
theorem xjz_priority_spec_witness :
    decodeParamsGen extract_xjz_format (fun _ => none) (fun _ _ => none) xjzPage =
      ⟨channel_key_of xjzPage, xjzDict.lookup "b_ts", xjzDict.lookup "b_rnd",
       xjzDict.lookup "b_sig", xjzDict.lookup "b_host", xjzDict.lookup "b_script"⟩ :=
  (xjz_priority_spec (fun _ => none) (fun _ _ => none) xjzPage xjzDict (by decide)
    (by decide)).1

/-- C4: after the full strategy chain, the parameter check fails exactly when
some of the six fields is falsy; the raised message names exactly the absent
fields (in the fixed order); and when all six are non-empty, no error is
raised and the flow proceeds to the auth handshake with the built auth URL. -/
theorem missing_params_spec :
    ∀ js : String,
      (∀ name : String,
        name ∈ missing_params (decodeParams js) ↔
          ((name = "channel_key" ∧ falsyO (decodeParams js).channel_key = true) ∨
           (name = "auth_ts" ∧ falsyO (decodeParams js).auth_ts = true) ∨
           (name = "auth_rnd" ∧ falsyO (decodeParams js).auth_rnd = true) ∨
           (name = "auth_sig" ∧ falsyO (decodeParams js).auth_sig = true) ∨
           (name = "auth_host" ∧ falsyO (decodeParams js).auth_host = true) ∨
           (name = "auth_php" ∧ falsyO (decodeParams js).auth_php = true))) ∧
      (missing_params (decodeParams js) = [] ↔
        (falsyO (decodeParams js).channel_key = false ∧
         falsyO (decodeParams js).auth_ts = false ∧
         falsyO (decodeParams js).auth_rnd = false ∧
         falsyO (decodeParams js).auth_sig = false ∧
         falsyO (decodeParams js).auth_host = false ∧
         falsyO (decodeParams js).auth_php = false)) ∧
      (missing_params (decodeParams js) ≠ [] →
        decode_and_auth js =
          .error ("Parametri mancanti: " ++ joinComma (missing_params (decodeParams js)))) ∧
      (missing_params (decodeParams js) = [] →
        decode_and_auth js =
          .ok (decodeParams js,
            build_auth_url ((decodeParams js).auth_host.getD "")
              ((decodeParams js).auth_php.getD "") ((decodeParams js).channel_key.getD "")
              ((decodeParams js).auth_ts.getD "") ((decodeParams js).auth_rnd.getD "")
              ((decodeParams js).auth_sig.getD ""))) := by
  intro js
  refine ⟨?_, ?_, ?_, ?_⟩
  · intro name
    cases h1 : falsyO (decodeParams js).channel_key <;>
      cases h2 : falsyO (decodeParams js).auth_ts <;>
      cases h3 : falsyO (decodeParams js).auth_rnd <;>
      cases h4 : falsyO (decodeParams js).auth_sig <;>
      cases h5 : falsyO (decodeParams js).auth_host <;>
      cases h6 : falsyO (decodeParams js).auth_php <;>
      simp [missing_params, h1, h2, h3, h4, h5, h6]
  · cases h1 : falsyO (decodeParams js).channel_key <;>
      cases h2 : falsyO (decodeParams js).auth_ts <;>
      cases h3 : falsyO (decodeParams js).auth_rnd <;>
      cases h4 : falsyO (decodeParams js).auth_sig <;>
      cases h5 : falsyO (decodeParams js).auth_host <;>
      cases h6 : falsyO (decodeParams js).auth_php <;>
      simp [missing_params, h1, h2, h3, h4, h5, h6]
  · intro hne
    have hemp : (missing_params (decodeParams js)).isEmpty = false := by
      cases hmp : missing_params (decodeParams js)
      · exact absurd hmp hne
      · rfl
    simp [decode_and_auth, hemp]
  · intro heq
    have hemp : (missing_params (decodeParams js)).isEmpty = true := by
      rw [heq]
      rfl
    simp [decode_and_auth, hemp]

set_option maxRecDepth 8192 in
/-- Witness for C4 on a page where all six parameters decode non-empty: the
check passes and the handshake proceeds. -/
theorem missing_params_spec_witness :
    decode_and_auth xjzPage =
      .ok (decodeParams xjzPage,
        build_auth_url ((decodeParams xjzPage).auth_host.getD "")
          ((decodeParams xjzPage).auth_php.getD "") ((decodeParams xjzPage).channel_key.getD "")
          ((decodeParams xjzPage).auth_ts.getD "") ((decodeParams xjzPage).auth_rnd.getD "")
          ((decodeParams xjzPage).auth_sig.getD "")) :=
  (missing_params_spec xjzPage).2.2.2 (by decide)

/-! ### Base64 and UTF-8 round-trip lemmas (toward C8) -/

theorem b64Idx_b64Chr : ∀ i, i < 64 → b64Idx (b64Chr i) = some i := by decide

theorem b64Chr_ne_pad : ∀ i, i < 64 → ¬ b64Chr i = '=' := by decide

theorem b64Chr_ascii : ∀ i, i < 64 → (b64Chr i).toNat < 128 := by decide

theorem b64Chr_kept : ∀ i, i < 64 → (isB64Char (b64Chr i) || (b64Chr i == '=')) = true := by
  decide

theorem encodeB64_length_mod (bs : List Nat) : (encodeB64 bs).length % 4 = 0 := by
  induction bs using encodeB64.induct with
  | case1 => simp [encodeB64]
  | case2 b1 => simp [encodeB64]
  | case3 b1 b2 => simp [encodeB64]
  | case4 b1 b2 b3 rest ih => simp [encodeB64]; omega

theorem encodeB64_chars (bs : List Nat) (hb : ∀ b ∈ bs, b < 256) :
    ∀ c ∈ encodeB64 bs, c.toNat < 128 ∧ (isB64Char c || (c == '=')) = true := by
  induction bs using encodeB64.induct with
  | case1 => intro c hc; simp [encodeB64] at hc
  | case2 b1 =>
    have h1 : b1 < 256 := hb b1 (by simp)
    intro c hc
    simp only [encodeB64, List.mem_cons, List.not_mem_nil, or_false] at hc
    rcases hc with h | h | h | h <;> subst h
    · exact ⟨b64Chr_ascii _ (by omega), b64Chr_kept _ (by omega)⟩
    · exact ⟨b64Chr_ascii _ (by omega), b64Chr_kept _ (by omega)⟩
    · exact ⟨by decide, by decide⟩
    · exact ⟨by decide, by decide⟩
  | case3 b1 b2 =>
    have h1 : b1 < 256 := hb b1 (by simp)
    have h2 : b2 < 256 := hb b2 (by simp)
    intro c hc
    simp only [encodeB64, List.mem_cons, List.not_mem_nil, or_false] at hc
    rcases hc with h | h | h | h <;> subst h
    · exact ⟨b64Chr_ascii _ (by omega), b64Chr_kept _ (by omega)⟩
    · exact ⟨b64Chr_ascii _ (by omega), b64Chr_kept _ (by omega)⟩
    · exact ⟨b64Chr_ascii _ (by omega), b64Chr_kept _ (by omega)⟩
    · exact ⟨by decide, by decide⟩
  | case4 b1 b2 b3 rest ih =>
    have h1 : b1 < 256 := hb b1 (by simp)
    have h2 : b2 < 256 := hb b2 (by simp)
    have h3 : b3 < 256 := hb b3 (by simp)
    have hrest : ∀ b ∈ rest, b < 256 := fun b hbm => hb b (by simp [hbm])
    intro c hc
    simp only [encodeB64, List.mem_cons] at hc
    rcases hc with h | h | h | h | h
    · subst h; exact ⟨b64Chr_ascii _ (by omega), b64Chr_kept _ (by omega)⟩
    · subst h; exact ⟨b64Chr_ascii _ (by omega), b64Chr_kept _ (by omega)⟩
    · subst h; exact ⟨b64Chr_ascii _ (by omega), b64Chr_kept _ (by omega)⟩
    · subst h; exact ⟨b64Chr_ascii _ (by omega), b64Chr_kept _ (by omega)⟩
    · exact ih hrest c h

theorem decode_encodeB64 (bs : List Nat) (hb : ∀ b ∈ bs, b < 256) :
    decodeB64Groups (encodeB64 bs) = some bs := by
  induction bs using encodeB64.induct with
  | case1 => rfl
  | case2 b1 =>
    have h1 : b1 < 256 := hb b1 (by simp)
    have e1 : b64Idx (b64Chr (b1 / 4)) = some (b1 / 4) := b64Idx_b64Chr _ (by omega)
    have e2 : b64Idx (b64Chr (b1 % 4 * 16)) = some (b1 % 4 * 16) :=
      b64Idx_b64Chr _ (by omega)
    simp [encodeB64, decodeB64Groups, e1, e2]
    omega
  | case3 b1 b2 =>
    have h1 : b1 < 256 := hb b1 (by simp)
    have h2 : b2 < 256 := hb b2 (by simp)
    have e1 : b64Idx (b64Chr (b1 / 4)) = some (b1 / 4) := b64Idx_b64Chr _ (by omega)
    have e2 : b64Idx (b64Chr (b1 % 4 * 16 + b2 / 16)) = some (b1 % 4 * 16 + b2 / 16) :=
      b64Idx_b64Chr _ (by omega)
    have e3 : b64Idx (b64Chr (b2 % 16 * 4)) = some (b2 % 16 * 4) :=
      b64Idx_b64Chr _ (by omega)
    have ne3 : ¬ b64Chr (b2 % 16 * 4) = '=' := b64Chr_ne_pad _ (by omega)
    simp [encodeB64, decodeB64Groups, e1, e2, e3, ne3]
    constructor <;> omega
  | case4 b1 b2 b3 rest ih =>
    have h1 : b1 < 256 := hb b1 (by simp)
    have h2 : b2 < 256 := hb b2 (by simp)
    have h3 : b3 < 256 := hb b3 (by simp)
    have hrest : ∀ b ∈ rest, b < 256 := fun b hbm => hb b (by simp [hbm])
    have e1 : b64Idx (b64Chr (b1 / 4)) = some (b1 / 4) := b64Idx_b64Chr _ (by omega)
    have e2 : b64Idx (b64Chr (b1 % 4 * 16 + b2 / 16)) = some (b1 % 4 * 16 + b2 / 16) :=
      b64Idx_b64Chr _ (by omega)
    have e3 : b64Idx (b64Chr (b2 % 16 * 4 + b3 / 64)) = some (b2 % 16 * 4 + b3 / 64) :=
      b64Idx_b64Chr _ (by omega)
    have e4 : b64Idx (b64Chr (b3 % 64)) = some (b3 % 64) := b64Idx_b64Chr _ (by omega)
    have ne3 : ¬ b64Chr (b2 % 16 * 4 + b3 / 64) = '=' := b64Chr_ne_pad _ (by omega)
    have ne4 : ¬ b64Chr (b3 % 64) = '=' := b64Chr_ne_pad _ (by omega)
    simp [encodeB64, decodeB64Groups, e1, e2, e3, e4, ne3, ne4, ih hrest]
    refine ⟨by omega, by omega, by omega⟩

/-- The textual base64 encoding of bytes is exactly inverted by the decoder. -/
theorem b64_roundtrip (bs : List Nat) (hb : ∀ b ∈ bs, b < 256) :
    b64decodePy (b64encodeStr bs) = some bs := by
  unfold b64decodePy b64encodeStr
  have hall : (String.mk (encodeB64 bs)).data.all (fun c => decide (c.toNat < 128)) = true := by
    simp only [List.all_eq_true, decide_eq_true_eq]
    intro c hc
    exact (encodeB64_chars bs hb c hc).1
  rw [if_pos hall]
  have hfil : (String.mk (encodeB64 bs)).data.filter (fun c => isB64Char c || c == '=') =
      encodeB64 bs := by
    apply List.filter_eq_self.mpr
    intro c hc
    exact (encodeB64_chars bs hb c hc).2
  rw [hfil, if_pos (encodeB64_length_mod bs)]
  exact decode_encodeB64 bs hb

theorem utf8EncodeChar_ascii (c : Char) (h : c.toNat < 128) : utf8EncodeChar c = [c.toNat] := by
  simp [utf8EncodeChar, h]

theorem utf8_ascii_roundtrip_aux (s : List Char) :
    ∀ fuel, (∀ c ∈ s, c.toNat < 128) → s.length ≤ fuel →
      utf8DecodeAux fuel (utf8EncodeL s) = some s := by
  induction s with
  | nil =>
    intro fuel _ _
    rw [show utf8EncodeL [] = [] from rfl]
    cases fuel <;> rfl
  | cons c rest ih =>
    intro fuel h hlen
    have hc : c.toNat < 128 := h c (by simp)
    have hrest : ∀ x ∈ rest, x.toNat < 128 := fun x hx => h x (by simp [hx])
    cases fuel with
    | zero => simp at hlen
    | succ f =>
      have henc : utf8EncodeL (c :: rest) = c.toNat :: utf8EncodeL rest := by
        simp [utf8EncodeL, utf8EncodeChar_ascii c hc]
      rw [henc]
      simp only [utf8DecodeAux]
      rw [if_pos hc, ih f hrest (by simp at hlen; omega)]
      simp [Char.ofNat_toNat]

theorem utf8EncodeL_ascii_length (s : List Char) (h : ∀ c ∈ s, c.toNat < 128) :
    (utf8EncodeL s).length = s.length := by
  induction s with
  | nil => rfl
  | cons c rest ih =>
    have hc : c.toNat < 128 := h c (by simp)
    have hrest : ∀ x ∈ rest, x.toNat < 128 := fun x hx => h x (by simp [hx])
    simp [utf8EncodeL, utf8EncodeChar_ascii c hc] at ih ⊢
    exact ih hrest

theorem utf8_ascii_roundtrip (s : List Char) (h : ∀ c ∈ s, c.toNat < 128) :
    utf8DecodeL (utf8EncodeL s) = some s := by
  unfold utf8DecodeL
  exact utf8_ascii_roundtrip_aux s (utf8EncodeL s).length h
    (le_of_eq (utf8EncodeL_ascii_length s h).symm)

/-- The chain written by `_save_cache` after serialisation — UTF-8 encode then
base64 — is inverted exactly by `_load_cache`'s decode side. -/
theorem transport_roundtrip (doc : List Char) (h : ∀ c ∈ doc, c.toNat < 128) :
    (do
      let bs ← b64decodePy (b64encodeStr (utf8EncodeL doc))
      utf8DecodeStr bs) = some (String.mk doc) := by
  have hb : ∀ b ∈ utf8EncodeL doc, b < 256 := by
    intro b hbm
    simp only [utf8EncodeL, List.mem_flatMap] at hbm
    obtain ⟨c, hcm, hbc⟩ := hbm
    rw [utf8EncodeChar_ascii c (h c hcm)] at hbc
    simp only [List.mem_singleton] at hbc
    have := h c hcm
    omega
  rw [b64_roundtrip (utf8EncodeL doc) hb]
  simp only [Option.bind_eq_bind, Option.some_bind, utf8DecodeStr,
    utf8_ascii_roundtrip doc h, Option.map_some']

/-! ### JSON string escaping round-trip (toward C8) -/

theorem hexDigitVal_hexDigLower : ∀ i, i < 16 → hexDigitVal (hexDigLower i) = some i := by
  decide

theorem parseHex4_toHex4 (n : Nat) (hn : n < 0x10000) (rest : List Char) :
    parseHex4 (toHex4 n ++ rest) = some (n, rest) := by
  have d1 : n / 4096 < 16 := by omega
  have d2 : n / 256 % 16 < 16 := by omega
  have d3 : n / 16 % 16 < 16 := by omega
  have d4 : n % 16 < 16 := by omega
  simp only [toHex4, List.cons_append, List.nil_append, parseHex4]
  rw [hexDigitVal_hexDigLower _ d1, hexDigitVal_hexDigLower _ d2,
    hexDigitVal_hexDigLower _ d3, hexDigitVal_hexDigLower _ d4]
  simp only [Option.bind_eq_bind, Option.some_bind, Option.pure_def, Option.some.injEq,
    Prod.mk.injEq, and_true]
  omega

/-- An escaped character: the parser consumes the decoded escape text. -/
theorem parseStrBody_esc (fuel : Nat) (T tail : List Char) (ch : Char)
    (hun : unescStep (T ++ tail) = some (ch, tail)) :
    parseStrBody (fuel + 1) ('\\' :: T ++ tail) =
      (parseStrBody fuel tail).map (fun p => (ch :: p.1, p.2)) := by
  simp [parseStrBody, hun]
  intro hq
  exact absurd hq (by decide)

/-- A plain character: the parser consumes it literally. -/
theorem parseStrBody_plain (fuel : Nat) (c : Char) (tail : List Char)
    (h1 : ¬ c = dquoteC) (h2 : ¬ c = '\\') :
    parseStrBody (fuel + 1) (c :: tail) =
      (parseStrBody fuel tail).map (fun p => (c :: p.1, p.2)) := by
  simp only [parseStrBody]
  rw [if_neg h1, if_neg h2]

/-- One escaped character consumes exactly its escape text and one unit of
fuel. -/
theorem parseStrBody_step (c : Char) (fuel : Nat) (tail : List Char) :
    parseStrBody (fuel + 1) (escChar c ++ tail) =
      (parseStrBody fuel tail).map (fun p => (c :: p.1, p.2)) := by
  have hval : c.toNat < 0xD800 ∨ (0xDFFF < c.toNat ∧ c.toNat < 0x110000) := by
    rcases c.valid with h | ⟨ha, hb⟩
    · exact Or.inl h
    · exact Or.inr ⟨ha, hb⟩
  by_cases h1 : c = dquoteC
  · rw [show escChar c = ['\\', dquoteC] from by rw [escChar, if_pos h1]]
    rw [show (['\\', dquoteC] : List Char) ++ tail = '\\' :: [dquoteC] ++ tail from rfl]
    rw [parseStrBody_esc fuel [dquoteC] tail dquoteC (by simp [unescStep]), h1]
  · by_cases h2 : c = '\\'
    · rw [show escChar c = ['\\', '\\'] from by rw [escChar, if_neg h1, if_pos h2]]
      rw [show (['\\', '\\'] : List Char) ++ tail = '\\' :: ['\\'] ++ tail from rfl]
      rw [parseStrBody_esc fuel ['\\'] tail '\\' (by simp [unescStep] <;> decide), h2]
    · by_cases h3 : c = '\n'
      · rw [show escChar c = ['\\', 'n'] from by rw [escChar, if_neg h1, if_neg h2, if_pos h3]]
        rw [show (['\\', 'n'] : List Char) ++ tail = '\\' :: ['n'] ++ tail from rfl]
        rw [parseStrBody_esc fuel ['n'] tail '\n' (by simp [unescStep] <;> decide), h3]
      · by_cases h4 : c = '\r'
        · rw [show escChar c = ['\\', 'r'] from by
            rw [escChar, if_neg h1, if_neg h2, if_neg h3, if_pos h4]]
          rw [show (['\\', 'r'] : List Char) ++ tail = '\\' :: ['r'] ++ tail from rfl]
          rw [parseStrBody_esc fuel ['r'] tail '\r' (by simp [unescStep] <;> decide), h4]
        · by_cases h5 : c = '\t'
          · rw [show escChar c = ['\\', 't'] from by
              rw [escChar, if_neg h1, if_neg h2, if_neg h3, if_neg h4, if_pos h5]]
            rw [show (['\\', 't'] : List Char) ++ tail = '\\' :: ['t'] ++ tail from rfl]
            rw [parseStrBody_esc fuel ['t'] tail '\t' (by simp [unescStep] <;> decide), h5]
          · by_cases h6 : c.toNat = 8
            · have hc : c = Char.ofNat 8 := by rw [← h6, Char.ofNat_toNat]
              rw [show escChar c = ['\\', 'b'] from by
                rw [escChar, if_neg h1, if_neg h2, if_neg h3, if_neg h4, if_neg h5,
                  if_pos h6]]
              rw [show (['\\', 'b'] : List Char) ++ tail = '\\' :: ['b'] ++ tail from rfl]
              rw [parseStrBody_esc fuel ['b'] tail (Char.ofNat 8)
                (by simp [unescStep] <;> decide), ← hc]
            · by_cases h7 : c.toNat = 12
              · have hc : c = Char.ofNat 12 := by rw [← h7, Char.ofNat_toNat]
                rw [show escChar c = ['\\', 'f'] from by
                  rw [escChar, if_neg h1, if_neg h2, if_neg h3, if_neg h4, if_neg h5,
                    if_neg h6, if_pos h7]]
                rw [show (['\\', 'f'] : List Char) ++ tail = '\\' :: ['f'] ++ tail from rfl]
                rw [parseStrBody_esc fuel ['f'] tail (Char.ofNat 12)
                  (by simp [unescStep] <;> decide), ← hc]
              · by_cases h8 : c.toNat < 0x20 ∨ 0x7e < c.toNat
                · by_cases h9 : c.toNat < 0x10000
                  · have hs1 : ¬ (0xD800 ≤ c.toNat ∧ c.toNat < 0xDC00) := by omega
                    have hs2 : ¬ (0xDC00 ≤ c.toNat ∧ c.toNat < 0xE000) := by omega
                    have hesc : escChar c = '\\' :: 'u' :: toHex4 c.toNat := by
                      rw [escChar, if_neg h1, if_neg h2, if_neg h3, if_neg h4, if_neg h5,
                        if_neg h6, if_neg h7, if_pos h8, if_pos h9]
                    rw [hesc]
                    rw [show ('\\' :: 'u' :: toHex4 c.toNat) ++ tail =
                      '\\' :: ('u' :: toHex4 c.toNat) ++ tail from rfl]
                    rw [parseStrBody_esc fuel ('u' :: toHex4 c.toNat) tail c ?_]
                    simp only [List.cons_append, unescStep, if_true]
                    repeat rw [if_neg (by decide)]
                    try rw [if_pos rfl]
                    rw [parseHex4_toHex4 c.toNat h9 tail]
                    try dsimp only
                    rw [if_neg hs1, if_neg hs2, Char.ofNat_toNat]
                  · have hhi : 0xD800 + (c.toNat - 0x10000) / 0x400 < 0x10000 := by omega
                    have hlo : 0xDC00 + (c.toNat - 0x10000) % 0x400 < 0x10000 := by omega
                    have harith : (0x10000 : Nat) +
                        (0xD800 + (c.toNat - 0x10000) / 0x400 - 0xD800) * 0x400 +
                        (0xDC00 + (c.toNat - 0x10000) % 0x400 - 0xDC00) = c.toNat := by
                      omega
                    have hesc : escChar c =
                        '\\' :: 'u' :: toHex4 (0xD800 + (c.toNat - 0x10000) / 0x400) ++
                          '\\' :: 'u' :: toHex4 (0xDC00 + (c.toNat - 0x10000) % 0x400) := by
                      rw [escChar, if_neg h1, if_neg h2, if_neg h3, if_neg h4, if_neg h5,
                        if_neg h6, if_neg h7, if_pos h8, if_neg h9]
                    rw [hesc]
                    rw [show ('\\' :: 'u' :: toHex4 (0xD800 + (c.toNat - 0x10000) / 0x400) ++
                        '\\' :: 'u' :: toHex4 (0xDC00 + (c.toNat - 0x10000) % 0x400)) ++ tail =
                      '\\' :: ('u' :: toHex4 (0xD800 + (c.toNat - 0x10000) / 0x400) ++
                        '\\' :: 'u' :: toHex4 (0xDC00 + (c.toNat - 0x10000) % 0x400)) ++ tail
                      from by simp]
                    rw [parseStrBody_esc fuel _ tail c ?_]
                    simp only [List.cons_append, List.append_assoc, unescStep, if_true]
                    repeat rw [if_neg (by decide)]
                    try rw [if_pos rfl]
                    rw [parseHex4_toHex4 _ hhi]
                    try dsimp only
                    rw [if_pos (by constructor <;> omega)]
                    try dsimp only
                    rw [if_pos ⟨rfl, rfl⟩]
                    rw [parseHex4_toHex4 _ hlo]
                    try dsimp only
                    rw [if_pos (by constructor <;> omega)]
                    rw [harith, Char.ofNat_toNat]
                · have hesc : escChar c = [c] := by
                    rw [escChar, if_neg h1, if_neg h2, if_neg h3, if_neg h4, if_neg h5,
                      if_neg h6, if_neg h7, if_neg h8]
                  rw [hesc]
                  rw [show ([c] : List Char) ++ tail = c :: tail from rfl]
                  exact parseStrBody_plain fuel c tail h1 h2

/-- The body parser inverts `escapeL`, consuming up to the closing quote. -/
theorem parseStrBody_escape (s : List Char) :
    ∀ (fuel : Nat) (rest : List Char), s.length ≤ fuel →
      parseStrBody fuel (escapeL s ++ dquoteC :: rest) = some (s, rest) := by
  induction s with
  | nil =>
    intro fuel rest _
    rw [show escapeL [] = [] from rfl]
    cases fuel <;> simp [parseStrBody]
  | cons c tl ih =>
    intro fuel rest hlen
    cases fuel with
    | zero => simp at hlen
    | succ f =>
      have hx : escapeL (c :: tl) ++ dquoteC :: rest =
          escChar c ++ (escapeL tl ++ dquoteC :: rest) := by
        simp [escapeL, List.append_assoc]
      rw [hx, parseStrBody_step c f (escapeL tl ++ dquoteC :: rest)]
      rw [ih f rest (by simp at hlen; omega)]
      rfl

/-- `parseJStr` inverts `jstrL`. -/
theorem parseJStr_jstrL (s : List Char) (fuel : Nat) (rest : List Char)
    (h : s.length ≤ fuel) : parseJStr fuel (jstrL s ++ rest) = some (s, rest) := by
  have hx : jstrL s ++ rest = dquoteC :: (escapeL s ++ dquoteC :: rest) := by
    simp [jstrL, List.append_assoc]
  rw [hx]
  simp only [parseJStr, if_pos rfl]
  exact parseStrBody_escape s fuel rest h

/-- `parseJStrV` inverts `jstr` on `String` payloads. -/
theorem parseJStrV_jstr (s : String) (fuel : Nat) (rest : List Char)
    (h : s.length ≤ fuel) : parseJStrV fuel (jstrL s.data ++ rest) = some (s, rest) := by
  unfold parseJStrV
  rw [parseJStr_jstrL s.data fuel rest h]
  rfl

/-! ### Object-level parsing round-trip (toward C8) -/

theorem skipWs_not (cs : List Char) (c : Char) (h : isJsonWs c = false) :
    skipWs (c :: cs) = c :: cs := by
  simp [skipWs, List.dropWhile_cons, h]

theorem skipWs_sp (cs : List Char) : skipWs (' ' :: cs) = skipWs cs := by
  simp [skipWs, List.dropWhile_cons, isJsonWs]

/-- `expectChar` on input already at the expected (non-whitespace) character. -/
theorem expectChar_head (c : Char) (cs : List Char) (hws : isJsonWs c = false) :
    expectChar c (c :: cs) = some cs := by
  simp [expectChar, skipWs_not cs c hws]

/-- `expectKeyColon` on the printed `"key": ` member prefix. -/
theorem expectKeyColon_printed (strFuel : Nat) (key : String) (X : List Char)
    (hk : key.length ≤ strFuel) (hX : skipWs X = X) :
    expectKeyColon strFuel key (jstrL key.data ++ ':' :: ' ' :: X) = some X := by
  have hx : jstrL key.data ++ ':' :: ' ' :: X =
      dquoteC :: (escapeL key.data ++ dquoteC :: (':' :: ' ' :: X)) := by
    simp [jstrL]
  have hskip : skipWs (jstrL key.data ++ ':' :: ' ' :: X) =
      jstrL key.data ++ ':' :: ' ' :: X := by
    rw [hx]
    exact skipWs_not _ dquoteC (by decide)
  unfold expectKeyColon
  rw [hskip, parseJStr_jstrL key.data strFuel (':' :: ' ' :: X) hk]
  simp only [Option.bind_eq_bind, Option.some_bind]
  simp only [if_true]
  rw [skipWs_not _ ':' (by decide)]
  dsimp only
  rw [if_pos rfl, skipWs_sp, hX]

/-- A printed string literal heads with a quote, so leading whitespace
skipping is the identity there. -/
theorem skipWs_jstrL (k Y : List Char) : skipWs (jstrL k ++ Y) = jstrL k ++ Y := by
  have hx : jstrL k ++ Y = dquoteC :: (escapeL k ++ dquoteC :: Y) := by
    simp [jstrL]
  rw [hx]
  exact skipWs_not _ dquoteC (by decide)

/-- The member-list parser inverts the printed member list (non-empty case).
The value parser `pv` must invert `printV` for each stored value, and printed
values must not begin with whitespace. -/
theorem parsePairsAux_printed (pv : List Char → Option (V × List Char))
    (printV : V → List Char) (strFuel : Nat) :
    ∀ (vals : List (String × V)) (fuel : Nat) (rest : List Char),
      vals ≠ [] → vals.length ≤ fuel →
      (∀ p ∈ vals, p.1.length ≤ strFuel) →
      (∀ p ∈ vals, ∀ X, pv (printV p.2 ++ X) = some (p.2, X)) →
      (∀ p ∈ vals, ∀ X, skipWs (printV p.2 ++ X) = printV p.2 ++ X) →
      parsePairsAux pv strFuel fuel
        (sepJoin [',', ' ']
          (vals.map (fun p => jstrL p.1.data ++ ':' :: ' ' :: printV p.2)) ++
          cbraceC :: rest) = some (vals, rest) := by
  intro vals
  induction vals with
  | nil => intro fuel rest hne; exact absurd rfl hne
  | cons p tl ih =>
    intro fuel rest _ hcount hkey hpv hws
    cases fuel with
    | zero => simp at hcount
    | succ f =>
      have hkeyp : p.1.length ≤ strFuel := hkey p (by simp)
      have hpvp : ∀ X, pv (printV p.2 ++ X) = some (p.2, X) := hpv p (by simp)
      have hwsp : ∀ X, skipWs (printV p.2 ++ X) = printV p.2 ++ X := hws p (by simp)
      cases tl with
      | nil =>
        have hx : sepJoin [',', ' ']
            ([p].map (fun q => jstrL q.1.data ++ ':' :: ' ' :: printV q.2)) ++
            cbraceC :: rest =
            jstrL p.1.data ++ ':' :: ' ' :: (printV p.2 ++ cbraceC :: rest) := by
          simp [sepJoin]
        rw [hx]
        simp only [parsePairsAux]
        rw [parseJStr_jstrL p.1.data strFuel _ hkeyp]
        simp only [Option.bind_eq_bind, Option.some_bind]
        rw [skipWs_not _ ':' (by decide)]
        dsimp only
        rw [if_pos rfl, skipWs_sp, hwsp (cbraceC :: rest), hpvp (cbraceC :: rest)]
        simp only [Option.some_bind]
        rw [skipWs_not _ cbraceC (by decide)]
        dsimp only
        rw [if_neg (by decide), if_pos rfl]
        rfl
      | cons q tl2 =>
        have hx : sepJoin [',', ' ']
            ((p :: q :: tl2).map (fun r => jstrL r.1.data ++ ':' :: ' ' :: printV r.2)) ++
            cbraceC :: rest =
            jstrL p.1.data ++ ':' :: ' ' ::
              (printV p.2 ++ ',' :: ' ' ::
                (sepJoin [',', ' ']
                  ((q :: tl2).map (fun r => jstrL r.1.data ++ ':' :: ' ' :: printV r.2)) ++
                  cbraceC :: rest)) := by
          simp [sepJoin]
        rw [hx]
        simp only [parsePairsAux]
        rw [parseJStr_jstrL p.1.data strFuel _ hkeyp]
        simp only [Option.bind_eq_bind, Option.some_bind]
        rw [skipWs_not _ ':' (by decide)]
        dsimp only
        rw [if_pos rfl, skipWs_sp, hwsp _, hpvp _]
        simp only [Option.some_bind]
        rw [skipWs_not _ ',' (by decide)]
        dsimp only
        rw [if_pos rfl, skipWs_sp]
        have hq : skipWs (sepJoin [',', ' ']
            ((q :: tl2).map (fun r => jstrL r.1.data ++ ':' :: ' ' :: printV r.2)) ++
            cbraceC :: rest) =
            sepJoin [',', ' ']
              ((q :: tl2).map (fun r => jstrL r.1.data ++ ':' :: ' ' :: printV r.2)) ++
              cbraceC :: rest := by
          cases tl2 with
          | nil =>
            have hy : sepJoin [',', ' ']
                ([q].map (fun r => jstrL r.1.data ++ ':' :: ' ' :: printV r.2)) ++
                cbraceC :: rest =
                jstrL q.1.data ++ (':' :: ' ' :: printV q.2 ++ cbraceC :: rest) := by
              simp [sepJoin]
            rw [hy, skipWs_jstrL]
          | cons r tl3 =>
            have hy : sepJoin [',', ' ']
                ((q :: r :: tl3).map (fun s => jstrL s.1.data ++ ':' :: ' ' :: printV s.2)) ++
                cbraceC :: rest =
                jstrL q.1.data ++ (':' :: ' ' :: printV q.2 ++ ',' :: ' ' ::
                  (sepJoin [',', ' ']
                    ((r :: tl3).map (fun s => jstrL s.1.data ++ ':' :: ' ' :: printV s.2)) ++
                    cbraceC :: rest)) := by
              simp [sepJoin]
            rw [hy, skipWs_jstrL]
        rw [hq]
        rw [ih f rest (by simp) (by simp only [List.length_cons] at hcount ⊢; omega)
          (fun r hr => hkey r (by simp [hr])) (fun r hr => hpv r (by simp [hr]))
          (fun r hr => hws r (by simp [hr]))]
        rfl

/-- The object parser inverts the printed object. -/
theorem parseObj_printed (pv : List Char → Option (V × List Char))
    (printV : V → List Char) (strFuel fuel : Nat) (vals : List (String × V))
    (rest : List Char) (hcount : vals.length ≤ fuel)
    (hkey : ∀ p ∈ vals, p.1.length ≤ strFuel)
    (hpv : ∀ p ∈ vals, ∀ X, pv (printV p.2 ++ X) = some (p.2, X))
    (hws : ∀ p ∈ vals, ∀ X, skipWs (printV p.2 ++ X) = printV p.2 ++ X) :
    parseObj pv strFuel fuel (dumpsObjL printV vals ++ rest) = some (vals, rest) := by
  cases vals with
  | nil =>
    have hx : dumpsObjL printV ([] : List (String × V)) ++ rest =
        obraceC :: cbraceC :: rest := by
      simp [dumpsObjL, sepJoin]
    rw [hx]
    unfold parseObj
    rw [skipWs_not _ obraceC (by decide)]
    dsimp only
    rw [if_pos rfl, skipWs_not _ cbraceC (by decide)]
    dsimp only
    rw [if_pos rfl]
  | cons p tl =>
    have hx : dumpsObjL printV (p :: tl) ++ rest =
        obraceC :: (sepJoin [',', ' ']
          ((p :: tl).map (fun r => jstrL r.1.data ++ ':' :: ' ' :: printV r.2)) ++
          cbraceC :: rest) := by
      simp [dumpsObjL]
    rw [hx]
    unfold parseObj
    rw [skipWs_not _ obraceC (by decide)]
    dsimp only
    rw [if_pos rfl]
    have hq : skipWs (sepJoin [',', ' ']
        ((p :: tl).map (fun r => jstrL r.1.data ++ ':' :: ' ' :: printV r.2)) ++
        cbraceC :: rest) =
        sepJoin [',', ' ']
          ((p :: tl).map (fun r => jstrL r.1.data ++ ':' :: ' ' :: printV r.2)) ++
          cbraceC :: rest := by
      cases tl with
      | nil =>
        have hy : sepJoin [',', ' ']
            ([p].map (fun r => jstrL r.1.data ++ ':' :: ' ' :: printV r.2)) ++
            cbraceC :: rest =
            jstrL p.1.data ++ (':' :: ' ' :: printV p.2 ++ cbraceC :: rest) := by
          simp [sepJoin]
        rw [hy, skipWs_jstrL]
      | cons q tl2 =>
        have hy : sepJoin [',', ' ']
            ((p :: q :: tl2).map (fun s => jstrL s.1.data ++ ':' :: ' ' :: printV s.2)) ++
            cbraceC :: rest =
            jstrL p.1.data ++ (':' :: ' ' :: printV p.2 ++ ',' :: ' ' ::
              (sepJoin [',', ' ']
                ((q :: tl2).map (fun s => jstrL s.1.data ++ ':' :: ' ' :: printV s.2)) ++
                cbraceC :: rest)) := by
          simp [sepJoin]
        rw [hy, skipWs_jstrL]
    rw [hq]
    have hhead : ∃ c cs, sepJoin [',', ' ']
        ((p :: tl).map (fun r => jstrL r.1.data ++ ':' :: ' ' :: printV r.2)) ++
        cbraceC :: rest = c :: cs ∧ ¬ c = cbraceC := by
      cases tl with
      | nil =>
        refine ⟨dquoteC, escapeL p.1.data ++ dquoteC :: (':' :: ' ' :: printV p.2 ++
          cbraceC :: rest), ?_, by decide⟩
        simp [sepJoin, jstrL]
      | cons q tl2 =>
        refine ⟨dquoteC, escapeL p.1.data ++ dquoteC :: (':' :: ' ' :: printV p.2 ++
          ',' :: ' ' :: (sepJoin [',', ' ']
            ((q :: tl2).map (fun s => jstrL s.1.data ++ ':' :: ' ' :: printV s.2)) ++
            cbraceC :: rest)), ?_, by decide⟩
        simp [sepJoin, jstrL]
    obtain ⟨c, cs, hcs, hcne⟩ := hhead
    rw [hcs]
    dsimp only
    rw [if_neg hcne, ← hcs]
    exact parsePairsAux_printed pv printV strFuel (p :: tl) fuel rest (by simp) hcount
      hkey hpv hws

/-- Leading space before `expectKeyColon` is harmless. -/
theorem expectKeyColon_sp (strFuel : Nat) (key : String) (Y : List Char) :
    expectKeyColon strFuel key (' ' :: Y) = expectKeyColon strFuel key Y := by
  unfold expectKeyColon
  rw [skipWs_sp]

/-- Any printed fragment with a known non-whitespace head is left intact by
whitespace skipping. -/
theorem skipWs_of_head (c : Char) (t l Y : List Char) (hl : l = c :: t)
    (hc : isJsonWs c = false) : skipWs (l ++ Y) = l ++ Y := by
  subst hl
  rw [List.cons_append]
  exact skipWs_not _ _ hc

/-- `parseFieldComma` inverts the printed `, "key": "value"` member. -/
theorem parseFieldComma_printed (strFuel : Nat) (key v : String) (X : List Char)
    (hk : key.length ≤ strFuel) (hv : v.length ≤ strFuel) :
    parseFieldComma strFuel key
      (',' :: ' ' :: (jstrL key.data ++ ':' :: ' ' :: (jstrL v.data ++ X))) = some (v, X) := by
  unfold parseFieldComma
  rw [expectChar_head ',' _ (by decide)]
  simp only [Option.bind_eq_bind, Option.some_bind]
  rw [expectKeyColon_sp, expectKeyColon_printed strFuel key (jstrL v.data ++ X) hk
    (skipWs_jstrL v.data X)]
  simp only [Option.some_bind]
  exact parseJStrV_jstr v strFuel X hv

theorem sumKV_count (hs : List (String × String)) : hs.length ≤ sumKV hs := by
  induction hs with
  | nil => simp [sumKV]
  | cons p tl ih =>
    simp only [sumKV, List.foldr_cons, List.length_cons] at ih ⊢
    omega

theorem sumKV_mem (hs : List (String × String)) (p : String × String) (hp : p ∈ hs) :
    p.1.length + p.2.length ≤ sumKV hs := by
  induction hs with
  | nil => simp at hp
  | cons q tl ih =>
    rcases List.mem_cons.mp hp with h | h
    · subst h
      simp only [sumKV, List.foldr_cons]
      omega
    · have := ih h
      simp only [sumKV, List.foldr_cons] at this ⊢
      omega

/-- `parseAuthData` inverts the printed `auth_data` object. -/
theorem parseAuthData_printed (strFuel : Nat) (a : CacheAuthData) (X : List Char)
    (hb : 18 ≤ strFuel) (hf : authSum a ≤ strFuel) :
    parseAuthData strFuel (dumpsAuthL a ++ X) = some (a, X) := by
  have hck : a.channel_key.length ≤ strFuel := by unfold authSum at hf; omega
  have hts : a.auth_ts.length ≤ strFuel := by unfold authSum at hf; omega
  have hrnd : a.auth_rnd.length ≤ strFuel := by unfold authSum at hf; omega
  have hsig : a.auth_sig.length ≤ strFuel := by unfold authSum at hf; omega
  have hhost : a.auth_host.length ≤ strFuel := by unfold authSum at hf; omega
  have hphp : a.auth_php.length ≤ strFuel := by unfold authSum at hf; omega
  have hifr : a.iframe_url.length ≤ strFuel := by unfold authSum at hf; omega
  have hx : dumpsAuthL a ++ X =
      obraceC :: (jstrL "channel_key".data ++ ':' :: ' ' :: (jstrL a.channel_key.data ++
        ',' :: ' ' :: (jstrL "auth_ts".data ++ ':' :: ' ' :: (jstrL a.auth_ts.data ++
        ',' :: ' ' :: (jstrL "auth_rnd".data ++ ':' :: ' ' :: (jstrL a.auth_rnd.data ++
        ',' :: ' ' :: (jstrL "auth_sig".data ++ ':' :: ' ' :: (jstrL a.auth_sig.data ++
        ',' :: ' ' :: (jstrL "auth_host".data ++ ':' :: ' ' :: (jstrL a.auth_host.data ++
        ',' :: ' ' :: (jstrL "auth_php".data ++ ':' :: ' ' :: (jstrL a.auth_php.data ++
        ',' :: ' ' :: (jstrL "iframe_url".data ++ ':' :: ' ' :: (jstrL a.iframe_url.data ++
          cbraceC :: X)))))))))))))) := by
    simp [dumpsAuthL, dumpsObjL, sepJoin]
  rw [hx]
  unfold parseAuthData
  rw [expectChar_head obraceC _ (by decide)]
  simp only [Option.bind_eq_bind, Option.some_bind]
  rw [expectKeyColon_printed strFuel "channel_key" _
    (by have h : ("channel_key" : String).length = 11 := rfl; omega)
    (skipWs_jstrL a.channel_key.data _)]
  simp only [Option.some_bind]
  rw [parseJStrV_jstr a.channel_key strFuel _ hck]
  simp only [Option.some_bind]
  rw [parseFieldComma_printed strFuel "auth_ts" a.auth_ts _
    (by have h : ("auth_ts" : String).length = 7 := rfl; omega) hts]
  simp only [Option.some_bind]
  rw [parseFieldComma_printed strFuel "auth_rnd" a.auth_rnd _
    (by have h : ("auth_rnd" : String).length = 8 := rfl; omega) hrnd]
  simp only [Option.some_bind]
  rw [parseFieldComma_printed strFuel "auth_sig" a.auth_sig _
    (by have h : ("auth_sig" : String).length = 8 := rfl; omega) hsig]
  simp only [Option.some_bind]
  rw [parseFieldComma_printed strFuel "auth_host" a.auth_host _
    (by have h : ("auth_host" : String).length = 9 := rfl; omega) hhost]
  simp only [Option.some_bind]
  rw [parseFieldComma_printed strFuel "auth_php" a.auth_php _
    (by have h : ("auth_php" : String).length = 8 := rfl; omega) hphp]
  simp only [Option.some_bind]
  rw [parseFieldComma_printed strFuel "iframe_url" a.iframe_url _
    (by have h : ("iframe_url" : String).length = 10 := rfl; omega) hifr]
  simp only [Option.some_bind]
  rw [expectChar_head cbraceC _ (by decide)]
  rfl

/-- A printed JSON object fragment starts with a brace, so whitespace skipping
leaves it intact. -/
theorem skipWs_dumpsObjL {V : Type} (pv : V → List Char) (m : List (String × V))
    (Y : List Char) : skipWs (dumpsObjL pv m ++ Y) = dumpsObjL pv m ++ Y := by
  have hx : dumpsObjL pv m ++ Y =
      obraceC :: (sepJoin [',', ' ']
        (m.map (fun p => jstrL p.1.data ++ ':' :: ' ' :: pv p.2)) ++ [cbraceC] ++ Y) := by
    simp [dumpsObjL]
  rw [hx]
  exact skipWs_not _ _ (by decide)

/-- A printed auth-data object starts with a brace, so whitespace skipping
leaves it intact. -/
theorem skipWs_dumpsAuthL (a : CacheAuthData) (Y : List Char) :
    skipWs (dumpsAuthL a ++ Y) = dumpsAuthL a ++ Y := by
  unfold dumpsAuthL
  exact skipWs_dumpsObjL _ _ _

/-- `parseStream` inverts the printed `ResolvedStream` object. -/
theorem parseStream_printed (strFuel fuel : Nat) (r : ResolvedStream) (X : List Char)
    (hsf : streamBound r ≤ strFuel) (hfu : streamBound r ≤ fuel) :
    parseStream strFuel fuel (dumpsStreamL r ++ X) = some (r, X) := by
  have h18 : 18 ≤ strFuel := by unfold streamBound at hsf; omega
  have hdu : r.destination_url.length ≤ strFuel := by unfold streamBound at hsf; omega
  have hme : r.mediaflow_endpoint.length ≤ strFuel := by unfold streamBound at hsf; omega
  have hauth : authSum r.auth_data ≤ strFuel := by unfold streamBound at hsf; omega
  have hcount : r.request_headers.length ≤ fuel := by
    have := sumKV_count r.request_headers
    unfold streamBound at hfu
    omega
  have hkeys : ∀ p ∈ r.request_headers, p.1.length ≤ strFuel := by
    intro p hp
    have := sumKV_mem r.request_headers p hp
    unfold streamBound at hsf
    omega
  have hvals : ∀ p ∈ r.request_headers, p.2.length ≤ strFuel := by
    intro p hp
    have := sumKV_mem r.request_headers p hp
    unfold streamBound at hsf
    omega
  have hx : dumpsStreamL r ++ X =
      obraceC :: (jstrL "destination_url".data ++ ':' :: ' ' ::
        (jstrL r.destination_url.data ++
        ',' :: ' ' :: (jstrL "request_headers".data ++ ':' :: ' ' ::
          (dumpsObjL (fun s => jstrL s.data) r.request_headers ++
        ',' :: ' ' :: (jstrL "mediaflow_endpoint".data ++ ':' :: ' ' ::
          (jstrL r.mediaflow_endpoint.data ++
        ',' :: ' ' :: (jstrL "auth_data".data ++ ':' :: ' ' ::
          (dumpsAuthL r.auth_data ++ cbraceC :: X)))))))) := by
    simp [dumpsStreamL]
  rw [hx]
  unfold parseStream
  rw [expectChar_head obraceC _ (by decide)]
  simp only [Option.bind_eq_bind, Option.some_bind]
  rw [expectKeyColon_printed strFuel "destination_url" _
    (by have h : ("destination_url" : String).length = 15 := rfl; omega)
    (skipWs_jstrL r.destination_url.data _)]
  simp only [Option.some_bind]
  rw [parseJStrV_jstr r.destination_url strFuel _ hdu]
  simp only [Option.some_bind]
  rw [expectChar_head ',' _ (by decide)]
  simp only [Option.some_bind]
  rw [expectKeyColon_sp, expectKeyColon_printed strFuel "request_headers" _
    (by have h : ("request_headers" : String).length = 15 := rfl; omega)
    (skipWs_dumpsObjL _ _ _)]
  simp only [Option.some_bind]
  rw [parseObj_printed (parseJStrV strFuel) (fun s => jstrL s.data) strFuel fuel
    r.request_headers _ hcount hkeys
    (fun p hp Y => parseJStrV_jstr p.2 strFuel Y (hvals p hp))
    (fun p hp Y => skipWs_jstrL p.2.data Y)]
  simp only [Option.some_bind]
  rw [parseFieldComma_printed strFuel "mediaflow_endpoint" r.mediaflow_endpoint _
    (by have h : ("mediaflow_endpoint" : String).length = 18 := rfl; omega) hme]
  simp only [Option.some_bind]
  rw [expectChar_head ',' _ (by decide)]
  simp only [Option.some_bind]
  rw [expectKeyColon_sp, expectKeyColon_printed strFuel "auth_data" _
    (by have h : ("auth_data" : String).length = 9 := rfl; omega)
    (skipWs_dumpsAuthL _ _)]
  simp only [Option.some_bind]
  rw [parseAuthData_printed strFuel r.auth_data _ h18 hauth]
  simp only [Option.some_bind]
  rw [expectChar_head cbraceC _ (by decide)]
  rfl

/-- Escaping a character never produces the empty list. -/
theorem escChar_len (c : Char) : 1 ≤ (escChar c).length := by
  unfold escChar
  repeat' split
  all_goals simp

/-- Escaping cannot shorten a string. -/
theorem escapeL_len (l : List Char) : l.length ≤ (escapeL l).length := by
  induction l with
  | nil => simp [escapeL]
  | cons c t ih =>
    have h := escChar_len c
    simp only [escapeL, List.flatMap_cons, List.length_append, List.length_cons] at ih ⊢
    omega

/-- A JSON string literal is at least two characters longer than its payload. -/
theorem jstrL_len (l : List Char) : l.length + 2 ≤ (jstrL l).length := by
  have h := escapeL_len l
  simp only [jstrL, List.length_cons, List.length_append, List.length_singleton]
  omega

/-- Generic length lower bound for a printed JSON object: the per-member sums
of key length, a value bound and one separator are dominated by the printed
length, whenever each value bound is dominated by its printed value. -/
theorem dumpsObjL_bound {V : Type} (bV : V → Nat) (printV : V → List Char)
    (m : List (String × V)) (hb : ∀ p ∈ m, bV p.2 ≤ (printV p.2).length) :
    m.foldr (fun p a => p.1.length + bV p.2 + 1 + a) 0 ≤ (dumpsObjL printV m).length := by
  induction m with
  | nil => simp [dumpsObjL, sepJoin]
  | cons p rest ih =>
    cases rest with
    | nil =>
      have h1 := jstrL_len p.1.data
      have h2 := hb p (by simp)
      have hsl : p.1.length = p.1.data.length := rfl
      simp only [dumpsObjL, List.map_cons, List.map_nil, sepJoin, List.foldr_cons,
        List.foldr_nil, List.length_cons, List.length_append, List.length_singleton,
        List.length_nil]
      omega
    | cons q r =>
      have h1 := jstrL_len p.1.data
      have h2 := hb p (by simp)
      have hsl : p.1.length = p.1.data.length := rfl
      have ih2 := ih (by intro x hx; exact hb x (List.mem_cons_of_mem p hx))
      simp only [dumpsObjL, List.map_cons, sepJoin, List.foldr_cons, List.length_cons,
        List.length_append, List.length_singleton, List.length_nil] at ih2 ⊢
      omega

/-- The printed header object dominates its `sumKV` bound. -/
theorem sumKV_le_dumpsObjL (hs : List (String × String)) :
    sumKV hs ≤ (dumpsObjL (fun s => jstrL s.data) hs).length := by
  have h := dumpsObjL_bound (fun s : String => s.length) (fun s : String => jstrL s.data) hs
    (by
      intro p hp
      show p.2.length ≤ (jstrL p.2.data).length
      have h1 := jstrL_len p.2.data
      have h2 : p.2.length = p.2.data.length := rfl
      omega)
  simpa [sumKV] using h

/-- The printed auth object dominates its `authSum` bound. -/
theorem authSum_le_dumpsAuthL (a : CacheAuthData) : authSum a ≤ (dumpsAuthL a).length := by
  have h := dumpsObjL_bound (fun s : String => s.length) (fun s : String => jstrL s.data)
    [("channel_key", a.channel_key), ("auth_ts", a.auth_ts), ("auth_rnd", a.auth_rnd),
     ("auth_sig", a.auth_sig), ("auth_host", a.auth_host), ("auth_php", a.auth_php),
     ("iframe_url", a.iframe_url)]
    (by
      intro p hp
      show p.2.length ≤ (jstrL p.2.data).length
      have h1 := jstrL_len p.2.data
      have h2 : p.2.length = p.2.data.length := rfl
      omega)
  unfold dumpsAuthL
  unfold authSum
  simp only [List.foldr_cons, List.foldr_nil] at h
  omega

/-- The printed stream object dominates its `streamBound`. -/
theorem streamBound_le_len (r : ResolvedStream) : streamBound r ≤ (dumpsStreamL r).length := by
  have h1 := jstrL_len r.destination_url.data
  have h2 := jstrL_len r.mediaflow_endpoint.data
  have h3 := sumKV_le_dumpsObjL r.request_headers
  have h4 := authSum_le_dumpsAuthL r.auth_data
  have e1 : r.destination_url.length = r.destination_url.data.length := rfl
  have e2 : r.mediaflow_endpoint.length = r.mediaflow_endpoint.data.length := rfl
  have k1 : (jstrL "destination_url".data).length = 17 := rfl
  have k2 : (jstrL "request_headers".data).length = 17 := rfl
  have k3 : (jstrL "mediaflow_endpoint".data).length = 20 := rfl
  have k4 : (jstrL "auth_data".data).length = 11 := rfl
  unfold streamBound
  simp only [dumpsStreamL, List.length_cons, List.length_append, List.length_singleton]
  omega

/-- The printed cache document dominates its `cacheBound`. -/
theorem cacheBound_le_len (m : List (String × ResolvedStream)) :
    cacheBound m ≤ (dumpsCacheL m).length := by
  have h := dumpsObjL_bound streamBound dumpsStreamL m
    (by intro p hp; exact streamBound_le_len p.2)
  unfold cacheBound dumpsCacheL
  exact h

theorem cacheBound_count (m : List (String × ResolvedStream)) : m.length ≤ cacheBound m := by
  induction m with
  | nil => simp [cacheBound]
  | cons p tl ih =>
    simp only [cacheBound, List.foldr_cons, List.length_cons] at ih ⊢
    omega

theorem cacheBound_mem (m : List (String × ResolvedStream)) (p : String × ResolvedStream)
    (hp : p ∈ m) : p.1.length + streamBound p.2 ≤ cacheBound m := by
  induction m with
  | nil => simp at hp
  | cons q tl ih =>
    rcases List.mem_cons.mp hp with h | h
    · subst h
      simp only [cacheBound, List.foldr_cons]
      omega
    · have := ih h
      simp only [cacheBound, List.foldr_cons] at this ⊢
      omega

/-- A printed stream object starts with a brace, so whitespace skipping leaves
it intact. -/
theorem skipWs_dumpsStreamL (r : ResolvedStream) (Y : List Char) :
    skipWs (dumpsStreamL r ++ Y) = dumpsStreamL r ++ Y := by
  unfold dumpsStreamL
  rw [List.cons_append, List.cons_append]
  exact skipWs_not _ _ (by decide)

/-- Base64 encoding of a non-empty byte list is non-empty. -/
theorem encodeB64_cons (b : Nat) (t : List Nat) :
    ∃ c cs, encodeB64 (b :: t) = c :: cs := by
  match t with
  | [] => exact ⟨_, _, rfl⟩
  | [b2] => exact ⟨_, _, rfl⟩
  | b2 :: b3 :: rest => exact ⟨_, _, rfl⟩

theorem isEmpty_mk_cons (c : Char) (t : List Char) : (String.mk (c :: t)).isEmpty = false := by
  have h := Char.utf8Size_pos c
  simp [String.isEmpty, String.endPos, String.utf8ByteSize, String.utf8ByteSize.go,
    String.Pos.ext_iff]
  omega

/-- The saved cache file contents are never the empty string. -/
theorem save_cache_ne_empty (m : List (String × ResolvedStream)) :
    (save_cache m).isEmpty = false := by
  have hx : utf8EncodeL (dumpsCacheL m) = 123 :: utf8EncodeL
      (sepJoin [',', ' '] (m.map (fun p => jstrL p.1.data ++ ':' :: ' ' :: dumpsStreamL p.2)) ++
        [cbraceC]) := by
    simp [dumpsCacheL, dumpsObjL, utf8EncodeL, List.flatMap_cons]
    rfl
  obtain ⟨c, cs, hc⟩ := encodeB64_cons 123
    (utf8EncodeL (sepJoin [',', ' ']
      (m.map (fun p => jstrL p.1.data ++ ':' :: ' ' :: dumpsStreamL p.2)) ++ [cbraceC]))
  unfold save_cache b64encodeStr
  rw [hx, hc]
  exact isEmpty_mk_cons c cs

theorem hexDigLower_ascii (i : Nat) (h : i < 16) : (hexDigLower i).toNat < 128 := by
  unfold hexDigLower
  interval_cases i <;> decide

theorem toHex4_ascii (n : Nat) (h : n < 65536) : ∀ c ∈ toHex4 n, c.toNat < 128 := by
  intro c hc
  unfold toHex4 at hc
  simp only [List.mem_cons, List.not_mem_nil, or_false] at hc
  rcases hc with h1 | h1 | h1 | h1 <;> subst h1 <;> apply hexDigLower_ascii <;> omega

/-- Every scalar value of a `Char` is below `0x110000`. -/
theorem char_toNat_lt (c : Char) : c.toNat < 1114112 := by
  have hv := c.valid
  simp [UInt32.isValidChar, Nat.isValidChar] at hv
  rcases hv with h | h <;> simp [Char.toNat] <;> omega

/-- `json.dumps` escaping emits only ASCII characters (`ensure_ascii=True`). -/
theorem escChar_ascii (c c2 : Char) (hc2 : c2 ∈ escChar c) : c2.toNat < 128 := by
  have hlt := char_toNat_lt c
  unfold escChar at hc2
  by_cases h1 : c = dquoteC
  · rw [if_pos h1] at hc2
    simp only [List.mem_cons, List.not_mem_nil, or_false] at hc2
    rcases hc2 with h | h <;> subst h <;> decide
  rw [if_neg h1] at hc2
  by_cases h2 : c = '\\'
  · rw [if_pos h2] at hc2
    simp only [List.mem_cons, List.not_mem_nil, or_false] at hc2
    rcases hc2 with h | h <;> subst h <;> decide
  rw [if_neg h2] at hc2
  by_cases h3 : c = '\n'
  · rw [if_pos h3] at hc2
    simp only [List.mem_cons, List.not_mem_nil, or_false] at hc2
    rcases hc2 with h | h <;> subst h <;> decide
  rw [if_neg h3] at hc2
  by_cases h4 : c = '\r'
  · rw [if_pos h4] at hc2
    simp only [List.mem_cons, List.not_mem_nil, or_false] at hc2
    rcases hc2 with h | h <;> subst h <;> decide
  rw [if_neg h4] at hc2
  by_cases h5 : c = '\t'
  · rw [if_pos h5] at hc2
    simp only [List.mem_cons, List.not_mem_nil, or_false] at hc2
    rcases hc2 with h | h <;> subst h <;> decide
  rw [if_neg h5] at hc2
  by_cases h6 : c.toNat = 8
  · rw [if_pos h6] at hc2
    simp only [List.mem_cons, List.not_mem_nil, or_false] at hc2
    rcases hc2 with h | h <;> subst h <;> decide
  rw [if_neg h6] at hc2
  by_cases h7 : c.toNat = 12
  · rw [if_pos h7] at hc2
    simp only [List.mem_cons, List.not_mem_nil, or_false] at hc2
    rcases hc2 with h | h <;> subst h <;> decide
  rw [if_neg h7] at hc2
  by_cases h8 : c.toNat < 32 ∨ 126 < c.toNat
  · rw [if_pos h8] at hc2
    by_cases h9 : c.toNat < 65536
    · rw [if_pos h9] at hc2
      simp only [List.mem_cons] at hc2
      rcases hc2 with h | h | h
      · subst h; decide
      · subst h; decide
      · exact toHex4_ascii c.toNat h9 c2 h
    · rw [if_neg h9] at hc2
      simp only [List.cons_append, List.mem_cons, List.mem_append] at hc2
      rcases hc2 with h | h | hc2
      · subst h; decide
      · subst h; decide
      rcases hc2 with h | h | h | h
      · exact toHex4_ascii _ (by omega) c2 h
      · subst h; decide
      · subst h; decide
      · exact toHex4_ascii _ (by omega) c2 h
  · rw [if_neg h8] at hc2
    simp only [List.mem_cons, List.not_mem_nil, or_false] at hc2
    subst hc2
    omega

theorem escapeL_ascii (l : List Char) : ∀ c ∈ escapeL l, c.toNat < 128 := by
  intro c hc
  simp only [escapeL, List.mem_flatMap] at hc
  obtain ⟨b, hb, hcb⟩ := hc
  exact escChar_ascii b c hcb

theorem ascii_append {l1 l2 : List Char} (h1 : ∀ c ∈ l1, c.toNat < 128)
    (h2 : ∀ c ∈ l2, c.toNat < 128) : ∀ c ∈ l1 ++ l2, c.toNat < 128 := by
  intro c hc
  rcases List.mem_append.mp hc with h | h
  · exact h1 c h
  · exact h2 c h

theorem ascii_cons {c0 : Char} {l : List Char} (h0 : c0.toNat < 128)
    (h : ∀ c ∈ l, c.toNat < 128) : ∀ c ∈ c0 :: l, c.toNat < 128 := by
  intro c hc
  rcases List.mem_cons.mp hc with h1 | h1
  · subst h1; exact h0
  · exact h c h1

theorem ascii_nil : ∀ c ∈ ([] : List Char), c.toNat < 128 := by simp

theorem jstrL_ascii (l : List Char) : ∀ c ∈ jstrL l, c.toNat < 128 := by
  unfold jstrL
  exact ascii_cons (by decide) (ascii_append (escapeL_ascii l) (ascii_cons (by decide) ascii_nil))

theorem sepJoin_ascii (parts : List (List Char))
    (hp : ∀ l ∈ parts, ∀ c ∈ l, c.toNat < 128) :
    ∀ c ∈ sepJoin [',', ' '] parts, c.toNat < 128 := by
  induction parts with
  | nil => simp [sepJoin]
  | cons x rest ih =>
    cases rest with
    | nil =>
      intro c hc
      exact hp x (by simp) c (by simpa [sepJoin] using hc)
    | cons y r =>
      intro c hc
      simp only [sepJoin, List.mem_append, List.mem_cons, List.not_mem_nil, or_false] at hc
      rcases hc with (hx | hsep) | hrec
      · exact hp x (by simp) c hx
      · rcases hsep with h | h <;> subst h <;> decide
      · exact ih (fun l hl => hp l (List.mem_cons_of_mem x hl)) c hrec

/-- A printed JSON object is ASCII whenever its printed values are. -/
theorem dumpsObjL_ascii {V : Type} (printV : V → List Char) (m : List (String × V))
    (hv : ∀ p ∈ m, ∀ c ∈ printV p.2, c.toNat < 128) :
    ∀ c ∈ dumpsObjL printV m, c.toNat < 128 := by
  unfold dumpsObjL
  refine ascii_append (ascii_cons (by decide) (sepJoin_ascii _ ?_))
    (ascii_cons (by decide) ascii_nil)
  intro l hl
  obtain ⟨p, hpm, rfl⟩ := List.mem_map.mp hl
  exact ascii_append (jstrL_ascii p.1.data)
    (ascii_cons (by decide) (ascii_cons (by decide) (hv p hpm)))

theorem dumpsAuthL_ascii (a : CacheAuthData) : ∀ c ∈ dumpsAuthL a, c.toNat < 128 := by
  unfold dumpsAuthL
  exact dumpsObjL_ascii _ _ (by intro p hp; exact jstrL_ascii p.2.data)

theorem dumpsStreamL_ascii (r : ResolvedStream) : ∀ c ∈ dumpsStreamL r, c.toNat < 128 := by
  have hobj := dumpsObjL_ascii (fun s => jstrL s.data) r.request_headers
    (by intro p hp; exact jstrL_ascii p.2.data)
  have hauth := dumpsAuthL_ascii r.auth_data
  unfold dumpsStreamL
  refine ascii_append (ascii_cons (by decide) ?_) (ascii_cons (by decide) ascii_nil)
  refine ascii_append ?_ (ascii_cons (by decide) (ascii_cons (by decide) hauth))
  refine ascii_append ?_ (ascii_cons (by decide) (ascii_cons (by decide) (jstrL_ascii _)))
  refine ascii_append ?_ (ascii_cons (by decide) (ascii_cons (by decide) (jstrL_ascii _)))
  refine ascii_append ?_ (ascii_cons (by decide) (ascii_cons (by decide) (jstrL_ascii _)))
  refine ascii_append ?_ (ascii_cons (by decide) (ascii_cons (by decide) hobj))
  refine ascii_append ?_ (ascii_cons (by decide) (ascii_cons (by decide) (jstrL_ascii _)))
  exact ascii_append (jstrL_ascii _)
    (ascii_cons (by decide) (ascii_cons (by decide) (jstrL_ascii _)))

/-- The serialised cache document is pure ASCII. -/
theorem dumpsCacheL_ascii (m : List (String × ResolvedStream)) :
    ∀ c ∈ dumpsCacheL m, c.toNat < 128 := by
  unfold dumpsCacheL
  exact dumpsObjL_ascii dumpsStreamL m (fun p _ => dumpsStreamL_ascii p.2)

/-- `json.loads` inverts `json.dumps` on the serialised cache document. -/
theorem loadsCache_printed (m : List (String × ResolvedStream)) :
    loadsCache (String.mk (dumpsCacheL m)) = some m := by
  have hcb := cacheBound_le_len m
  have hcnt := cacheBound_count m
  have hparse : parseObj (parseStream (dumpsCacheL m).length (dumpsCacheL m).length)
      (dumpsCacheL m).length (dumpsCacheL m).length (dumpsCacheL m) = some (m, []) := by
    have h := parseObj_printed (parseStream (dumpsCacheL m).length (dumpsCacheL m).length)
      dumpsStreamL (dumpsCacheL m).length (dumpsCacheL m).length m []
      (by omega)
      (by intro p hp; have := cacheBound_mem m p hp; omega)
      (by
        intro p hp Y
        exact parseStream_printed _ _ p.2 Y
          (by have := cacheBound_mem m p hp; omega)
          (by have := cacheBound_mem m p hp; omega))
      (fun p hp Y => skipWs_dumpsStreamL p.2 Y)
    rw [List.append_nil] at h
    exact h
  unfold loadsCache
  dsimp only
  rw [Option.bind_eq_bind, hparse, Option.some_bind]
  simp [skipWs]

/-- C8: the cache store's encoding round-trips — saving any map and loading
the written file yields a map equal to the original; the Base64-over-JSON
encoding used by `_save_cache` is exactly inverted by `_load_cache`. -/
theorem cache_roundtrip_spec (m : List (String × ResolvedStream)) :
    load_cache (save_cache m) = some m := by
  have hne := save_cache_ne_empty m
  have htr := transport_roundtrip (dumpsCacheL m) (dumpsCacheL_ascii m)
  simp only [Option.bind_eq_bind, Option.bind_eq_some] at htr
  obtain ⟨bs, h1, h2⟩ := htr
  unfold load_cache
  rw [if_neg (by simp [hne])]
  unfold save_cache
  simp only [Option.bind_eq_bind]
  rw [h1, Option.some_bind, h2, Option.some_bind]
  exact loadsCache_printed m
